import Mathlib

/-!
# Verification of the major-group duplicate-block detection and removal core

Shallow embedding of `scripts/remove_duplicate_groups.py` (segmentation of a
dataframe into "major groups" at rows whose `dumb_time` cell is null, a
content signature per group over the non-"time" columns, keep-first duplicate
removal) together with the `hash()`-based signature bucketing of
`scripts/analyze_correct_duplicates.py`.

Modelling decisions (documented once here):
* A dataframe is a header (list of column names) plus a list of rows, each row
  a list of cells positionally aligned with the header.  A cell is null (pandas
  NaN), a string, or an integer; `str(value)` of pandas renders NaN as "nan",
  which `strCell` mirrors.
* `hashlib.md5(...).hexdigest()` is modelled as the identity on the canonical
  buffer: the spec (§4.3) explicitly allows comparing the buffers directly in
  place of fixed-size digests, so digest equality is modelled as buffer
  equality and md5 is treated as injective.
* Python's salted, process-dependent built-in `hash` (used by
  `analyze_correct_duplicates.py`) is modelled as an arbitrary function
  `String → Int` passed as a parameter.
-/

/-- A cell of the dataframe: pandas NaN (null), a string, or an integer. -/
inductive Cell where
  | null : Cell
  | str : String → Cell
  | int : Int → Cell
deriving DecidableEq, Repr

/-- Python `str(value)` on a cell: pandas NaN prints as "nan". -/
def strCell : Cell → String
  | Cell.null => "nan"
  | Cell.str s => s
  | Cell.int n => toString n

/-- A pandas dataframe: ordered column names and rows of cells, each row
positionally aligned with `cols`. -/
structure DataFrame where
  cols : List String
  rows : List (List Cell)
deriving DecidableEq, Repr

/-- `row[col]`: name-based lookup of a cell in a row (header and row walked in
parallel).  A missing column yields null; in the scripts the column always
comes from the header. -/
def lookupCell : List String → List Cell → String → Cell
  | c :: cs, v :: vs, name => if c = name then v else lookupCell cs vs name
  | _, _, _ => Cell.null

/-- `df.iloc[i][col]` as used by the scripts. -/
def cellAt (df : DataFrame) (i : Nat) (c : String) : Cell :=
  lookupCell df.cols (df.rows.getD i []) c

/-- Is `pat` a prefix of `l` (over characters). -/
def charIsPre : List Char → List Char → Bool
  | [], _ => true
  | _ :: _, [] => false
  | a :: asx, b :: bs => a == b && charIsPre asx bs

/-- Does `pat` occur as a contiguous substring of `l`. -/
def charHasSub (pat : List Char) : List Char → Bool
  | [] => charIsPre pat []
  | c :: rest => charIsPre pat (c :: rest) || charHasSub pat rest

/-- Python `'time' in col.lower()`. -/
def containsTime (s : String) : Bool :=
  charHasSub "time".data (s.data.map Char.toLower)

/-- `[col for col in df.columns if 'time' not in col.lower()]`. -/
def non_time_cols (df : DataFrame) : List String :=
  df.cols.filter (fun c => !containsTime c)

/-- Python `sep.join(values)`. -/
def pyJoin (sep : String) : List String → String
  | [] => ""
  | [v] => v
  | v :: rest => v ++ sep ++ pyJoin sep rest

/-- Left-to-right accumulation of strings (`values_str += ...`). -/
def concatStr (l : List String) : String :=
  l.foldl (fun a b => a ++ b) ""

/-- `df.iloc[start:end+1]`: the rows of the group, inclusive on both ends. -/
def segRows (rows : List (List Cell)) (start_idx end_idx : Nat) : List (List Cell) :=
  (rows.drop start_idx).take (end_idx + 1 - start_idx)

/-- One line of the canonical buffer: `"|".join([str(row[col]) for col in
non_time_cols]) + "\n"`. -/
def rowLine (cols : List String) (sub : List String) (row : List Cell) : String :=
  pyJoin "|" (sub.map (fun c => strCell (lookupCell cols row c))) ++ "\n"

/-- `create_group_signature(df, start_idx, end_idx, non_time_cols)` of
`remove_duplicate_groups.py`.  The md5 hex digest is modelled as the canonical
buffer `values_str` itself (md5 treated as injective, see header). -/
def create_group_signature (df : DataFrame) (start_idx end_idx : Nat)
    (sub : List String) : String :=
  concatStr ((segRows df.rows start_idx end_idx).map (rowLine df.cols sub))

/-- A major group as built by `identify_major_groups`: the Python dict
`{'start': ..., 'end': ..., 'size': ..., 'group_index': ...}`.  The `end` key
is named `stop` here (`end` is a Lean keyword). -/
structure MajorGroup where
  start : Nat
  stop : Nat
  size : Nat
  group_index : Nat
deriving DecidableEq, Repr

def defaultGroup : MajorGroup := ⟨0, 0, 0, 0⟩

/-- `df[df['dumb_time'].isna()].index.tolist()`: ascending list of row indices
whose `dumb_time` cell is null. -/
def nullIndices (df : DataFrame) : List Nat :=
  (List.range df.rows.length).filter (fun i => decide (cellAt df i "dumb_time" = Cell.null))

/-- The loop of `identify_major_groups`: each start index is paired with the
next start minus one (or the last row index for the final group). -/
def buildGroups (n : Nat) : List Nat → Nat → List MajorGroup
  | [], _ => []
  | [s], idx => [⟨s, n - 1, n - 1 - s + 1, idx⟩]
  | s :: s' :: rest, idx =>
      ⟨s, s' - 1, s' - 1 - s + 1, idx⟩ :: buildGroups n (s' :: rest) (idx + 1)

/-- `identify_major_groups(df)` of `remove_duplicate_groups.py`. -/
def identify_major_groups (df : DataFrame) : List MajorGroup :=
  buildGroups df.rows.length (nullIndices df) 0

/-- `defaultdict(list)` bucket update preserving first-seen key order:
`group_signatures[signature].append(x)`. -/
def addToBuckets {κ α : Type} [DecidableEq κ] :
    List (κ × List α) → κ → α → List (κ × List α)
  | [], k, a => [(k, [a])]
  | (k', l) :: rest, k, a =>
      if k' = k then (k', l ++ [a]) :: rest else (k', l) :: addToBuckets rest k a

/-- The invariant of the bucketing fold: buckets are nonempty, every element of
a bucket has that bucket's key under `f`, and keys are distinct. -/
def BucketsInv {κ α : Type} (f : α → κ) (bs : List (κ × List α)) : Prop :=
  (∀ b ∈ bs, b.2 ≠ [] ∧ ∀ x ∈ b.2, f x = b.1) ∧ (bs.map Prod.fst).Nodup

/-- The signature of one major group as computed inside `find_duplicate_groups`. -/
def sigOf (df : DataFrame) (g : MajorGroup) : String :=
  create_group_signature df g.start g.stop (non_time_cols df)

/-- The signature-bucketing loop of `find_duplicate_groups`. -/
def group_signature_buckets (df : DataFrame) (major_groups : List MajorGroup) :
    List (String × List MajorGroup) :=
  major_groups.foldl
    (fun bs g =>
      addToBuckets bs (create_group_signature df g.start g.stop (non_time_cols df)) g)
    []

/-- `find_duplicate_groups(df, major_groups)`: returns
`(unique_groups, duplicate_groups, groups_to_keep)`.  The Python
`groups_to_keep` set is modelled as the list of kept `group_index` values in
bucket order (it is only ever used through membership). -/
def find_duplicate_groups (df : DataFrame) (major_groups : List MajorGroup) :
    List MajorGroup × List MajorGroup × List Nat :=
  let buckets := group_signature_buckets df major_groups
  (buckets.map (fun b => b.2.headD defaultGroup),
   buckets.flatMap (fun b => b.2.drop 1),
   buckets.map (fun b => (b.2.headD defaultGroup).group_index))

/-- `mask.iloc[start:end+1] = True`, walking the mask with a running index. -/
def setFrom (s e : Nat) : Nat → List Bool → List Bool
  | _, [] => []
  | j, b :: bs => (if s ≤ j && j ≤ e then true else b) :: setFrom s e (j + 1) bs

/-- `keep_mask.iloc[group['start']:group['end']+1] = True` over all kept
groups, starting from `pd.Series([False] * len(df))`. -/
def keepMask (n : Nat) (groups_to_keep : List Nat) (major_groups : List MajorGroup) :
    List Bool :=
  major_groups.foldl
    (fun m g => if g.group_index ∈ groups_to_keep then setFrom g.start g.stop 0 m else m)
    (List.replicate n false)

/-- Boolean-mask row selection `df[keep_mask]`. -/
def filterMask {α : Type} (l : List α) (m : List Bool) : List α :=
  ((l.zip m).filter (fun p => p.2)).map (fun p => p.1)

/-- `remove_duplicate_groups(df, groups_to_keep, major_groups)`:
`df[keep_mask].reset_index(drop=True)`. -/
def remove_duplicate_groups (df : DataFrame) (groups_to_keep : List Nat)
    (major_groups : List MajorGroup) : DataFrame :=
  ⟨df.cols, filterMask df.rows (keepMask df.rows.length groups_to_keep major_groups)⟩

/-- The canonical buffer built by `analyze_data_pattern` of
`analyze_correct_duplicates.py` for one major group (same loop as
`create_group_signature`, but fed to Python's builtin `hash`). -/
def analyze_values_str (df : DataFrame) (g : MajorGroup) : String :=
  concatStr ((segRows df.rows g.start g.stop).map (rowLine df.cols (non_time_cols df)))

/-- The `group_signatures` dict of `analyze_data_pattern`, bucketing the
positional group indices by `hash(values_str)`; the host hash implementation
is the parameter `h`. -/
def analyze_group_signatures (h : String → Int) (df : DataFrame)
    (major_groups : List MajorGroup) : List (Int × List Nat) :=
  (major_groups.enum.foldl
    (fun bs ig => addToBuckets bs (h (analyze_values_str df ig.2)) ig.1) [])

/-- `duplicate_signatures = {sig: indices for ... if len(indices) > 1}`. -/
def analyze_duplicate_patterns (h : String → Int) (df : DataFrame)
    (major_groups : List MajorGroup) : List (Int × List Nat) :=
  (analyze_group_signatures h df major_groups).filter (fun b => 1 < b.2.length)

/-- The same bucketing keyed by the canonical buffer itself (used to relate the
host-hash-keyed buckets of `analyze_group_signatures` to content). -/
def analyze_str_buckets (df : DataFrame) (major_groups : List MajorGroup) :
    List (String × List Nat) :=
  (major_groups.enum.foldl
    (fun bs ig => addToBuckets bs (analyze_values_str df ig.2) ig.1) [])

/-- `Spans a n gs`: the groups `gs` tile the row-index interval `[a, n)`
contiguously, in order, each group nonempty. -/
inductive Spans : Nat → Nat → List MajorGroup → Prop where
  | nil : ∀ n, Spans n n []
  | cons : ∀ (g : MajorGroup) (gs : List MajorGroup) (a n : Nat),
      g.start = a → a ≤ g.stop → g.stop < n → Spans (g.stop + 1) n gs →
      Spans a n (g :: gs)

/-- Does some kept group of `gs` cover row index `i`. -/
def covers (keep : List Nat) (gs : List MajorGroup) (i : Nat) : Bool :=
  gs.any (fun g =>
    decide (g.group_index ∈ keep) && decide (g.start ≤ i) && decide (i ≤ g.stop))

/-- The boolean list `[p j, p (j+1), ..., p (j+n-1)]`. -/
def maskOfFrom (p : Nat → Bool) : Nat → Nat → List Bool
  | _, 0 => []
  | j, n + 1 => p j :: maskOfFrom p (j + 1) n

/-- Character-level form of `"|".join(fields)`. -/
def encRow : List (List Char) → List Char
  | [] => []
  | [f] => f
  | f :: f' :: fs => f ++ '|' :: encRow (f' :: fs)

/-- Character-level form of the whole canonical buffer: every row is encoded
and terminated by a newline. -/
def encMatrix (m : List (List (List Char))) : List Char :=
  (m.map (fun fs => encRow fs ++ ['\n'])).flatten

/-- The matrix of canonicalized (stringified) cell values of a group over a
column subset, row-major. -/
def canonMatrix (df : DataFrame) (start_idx end_idx : Nat) (sub : List String) :
    List (List String) :=
  (segRows df.rows start_idx end_idx).map
    (fun r => sub.map (fun c => strCell (lookupCell df.cols r c)))

/-- A canonicalized value that contains neither the field separator nor the
row separator of the signature encoding. -/
@[reducible]
def goodVal (v : String) : Prop := '|' ∉ v.data ∧ '\n' ∉ v.data

/-- Is the `dumb_time` cell of a row null (row-level form of the boundary
predicate, with the header passed explicitly). -/
def rowNull (cols : List String) (r : List Cell) : Bool :=
  decide (lookupCell cols r "dumb_time" = Cell.null)

/-- A block of rows as cut out by a kept group: nonempty, boundary-null on its
first row and boundary-non-null on all later rows. -/
def GoodBlock (cols : List String) (b : List (List Cell)) : Prop :=
  b ≠ [] ∧ rowNull cols (b.headD []) = true ∧ ∀ r ∈ b.tail, rowNull cols r = false

/-- Offsets at which the blocks of a flattened list of blocks begin, starting
from offset `j`. -/
def blockStartsFrom {α : Type} : Nat → List (List α) → List Nat
  | _, [] => []
  | j, b :: bs => j :: blockStartsFrom (j + b.length) bs

/-- Absolute positions (starting at offset `j`) of the boundary-null rows of a
row list. -/
def nullPositionsFrom (cols : List String) : Nat → List (List Cell) → List Nat
  | _, [] => []
  | j, r :: rs =>
      (if rowNull cols r then [j] else []) ++ nullPositionsFrom cols (j + 1) rs

/-! ### Concrete example frames used by witnesses and counterexamples -/

/-- Five rows, three major groups (group 0 and group 1 share all non-time
content; the time columns differ). -/
def dfA : DataFrame :=
  ⟨["dumb_time", "good_time", "a", "b"],
   [[Cell.null, Cell.int 10, Cell.str "x", Cell.int 1],
    [Cell.int 5, Cell.int 11, Cell.str "y", Cell.int 2],
    [Cell.null, Cell.int 20, Cell.str "x", Cell.int 1],
    [Cell.int 9, Cell.int 21, Cell.str "y", Cell.int 2],
    [Cell.null, Cell.int 30, Cell.str "q", Cell.int 3]]⟩

/-- A single row whose boundary cell is non-null: no null `dumb_time` anywhere,
so `identify_major_groups` assigns the row to no group at all. -/
def dfNoNull : DataFrame :=
  ⟨["dumb_time", "a"], [[Cell.int 1, Cell.str "u"]]⟩

/-- Two rows; the boundary column is null only at row 1, so the first group
does not start at row 0. -/
def dfStartsAt1 : DataFrame :=
  ⟨["dumb_time", "a"], [[Cell.int 1, Cell.str "u"], [Cell.null, Cell.str "v"]]⟩

/-- Signature collisions of the raw encoding: row 0 vs row 1 collide because a
value contains the field separator; row 2 vs row 3 collide because a null cell
and the literal text "nan" both canonicalize to "nan". -/
def dfPipe : DataFrame :=
  ⟨["a", "b"],
   [[Cell.str "x|y", Cell.str "z"],
    [Cell.str "x", Cell.str "y|z"],
    [Cell.null, Cell.str "q"],
    [Cell.str "nan", Cell.str "q"]]⟩

/-- Two major groups that agree on every column except the boundary column
`dumb_time` itself (interior boundary values 5 vs 9). -/
def dfTimeDiff : DataFrame :=
  ⟨["dumb_time", "a", "b"],
   [[Cell.null, Cell.str "x", Cell.int 1],
    [Cell.int 5, Cell.str "y", Cell.int 2],
    [Cell.null, Cell.str "x", Cell.int 1],
    [Cell.int 9, Cell.str "y", Cell.int 2]]⟩

/-- Two major groups with different non-time content and different sizes. -/
def dfTwo : DataFrame :=
  ⟨["dumb_time", "a"],
   [[Cell.null, Cell.str "x"],
    [Cell.int 1, Cell.str "y"],
    [Cell.null, Cell.str "z"]]⟩

/-- Companion of `dfA` for the time-insensitivity claim: identical to `dfA`
except in the values of the time columns. -/
def dfAShift : DataFrame :=
  ⟨["dumb_time", "good_time", "a", "b"],
   [[Cell.null, Cell.int 110, Cell.str "x", Cell.int 1],
    [Cell.int 7, Cell.int 111, Cell.str "y", Cell.int 2],
    [Cell.null, Cell.int 120, Cell.str "x", Cell.int 1],
    [Cell.int 8, Cell.int 121, Cell.str "y", Cell.int 2],
    [Cell.null, Cell.int 130, Cell.str "q", Cell.int 3]]⟩

/-- A frame with two null-`dumb_time` rows and equal-content groups, with null
cells inside the compared columns (both groups have a null in column `a`). -/
def dfNulls : DataFrame :=
  ⟨["dumb_time", "a", "b"],
   [[Cell.null, Cell.null, Cell.int 1],
    [Cell.int 5, Cell.str "y", Cell.int 2],
    [Cell.null, Cell.null, Cell.int 1],
    [Cell.int 9, Cell.str "y", Cell.int 2]]⟩

/-- An overlapping and unsorted groups list (starts 2 then 0; both cover row
2), used to exercise the materializer on malformed input. -/
def gsBad : List MajorGroup := [⟨2, 3, 2, 1⟩, ⟨0, 2, 3, 0⟩]

/-! ### Tiling lemmas for `buildGroups` / `identify_major_groups` -/

theorem Spans.le_of {a n : Nat} {gs : List MajorGroup} (h : Spans a n gs) : a ≤ n := by
  induction h with
  | nil n => exact Nat.le_refl n
  | cons g gs a n h1 h2 h3 h4 ih => omega

theorem Spans.mem_bounds {a n : Nat} {gs : List MajorGroup} (h : Spans a n gs) :
    ∀ g ∈ gs, a ≤ g.start ∧ g.start ≤ g.stop ∧ g.stop < n := by
  induction h with
  | nil n => intro g hg; simp at hg
  | cons g gs a n hstart hle hlt hrest ih =>
    intro g' hg'
    rcases List.mem_cons.mp hg' with rfl | hg'
    · omega
    · have := ih g' hg'; omega

theorem buildGroups_spans (n : Nat) (s : Nat) (rest : List Nat) (idx : Nat)
    (hp : List.Pairwise (· < ·) (s :: rest)) (hb : ∀ x ∈ s :: rest, x < n) :
    Spans s n (buildGroups n (s :: rest) idx) := by
  induction rest generalizing s idx with
  | nil =>
    have hs : s < n := hb s (by simp)
    show Spans s n [⟨s, n - 1, n - 1 - s + 1, idx⟩]
    refine Spans.cons _ _ _ _ rfl (show s ≤ n - 1 by omega) (show n - 1 < n by omega) ?_
    show Spans (n - 1 + 1) n []
    have h1 : n - 1 + 1 = n := by omega
    simpa [h1] using Spans.nil n
  | cons s' rest ih =>
    have hss' : s < s' := (List.pairwise_cons.mp hp).1 s' (by simp)
    have hs'n : s' < n := hb s' (by simp)
    show Spans s n (⟨s, s' - 1, s' - 1 - s + 1, idx⟩ ::
      buildGroups n (s' :: rest) (idx + 1))
    refine Spans.cons _ _ _ _ rfl (show s ≤ s' - 1 by omega) (show s' - 1 < n by omega) ?_
    show Spans (s' - 1 + 1) n (buildGroups n (s' :: rest) (idx + 1))
    have h1 : s' - 1 + 1 = s' := by omega
    rw [h1]
    exact ih s' (idx + 1) (List.pairwise_cons.mp hp).2
      (fun x hx => hb x (List.mem_cons_of_mem _ hx))

theorem buildGroups_size (n : Nat) (starts : List Nat) (idx : Nat)
    (hp : List.Pairwise (· < ·) starts) (hb : ∀ x ∈ starts, x < n) :
    ∀ g ∈ buildGroups n starts idx, g.size = g.stop + 1 - g.start := by
  induction starts generalizing idx with
  | nil => intro g hg; simp [buildGroups] at hg
  | cons s rest ih =>
    cases rest with
    | nil =>
      intro g hg
      have hs : s < n := hb s (by simp)
      rcases List.mem_singleton.mp hg with rfl
      show n - 1 - s + 1 = n - 1 + 1 - s
      omega
    | cons s' rest' =>
      intro g hg
      have hss' : s < s' := (List.pairwise_cons.mp hp).1 s' (by simp)
      rcases List.mem_cons.mp hg with rfl | hg'
      · show s' - 1 - s + 1 = s' - 1 + 1 - s
        omega
      · exact ih (idx + 1) (List.pairwise_cons.mp hp).2
          (fun x hx => hb x (List.mem_cons_of_mem _ hx)) g hg'

theorem buildGroups_index (n : Nat) (starts : List Nat) (idx : Nat) :
    (buildGroups n starts idx).map (fun g => g.group_index) =
      List.range' idx starts.length := by
  induction starts generalizing idx with
  | nil => simp [buildGroups]
  | cons s rest ih =>
    cases rest with
    | nil => simp [buildGroups, List.range']
    | cons s' rest' =>
      show idx :: (buildGroups n (s' :: rest') (idx + 1)).map (fun g => g.group_index) = _
      rw [ih (idx + 1)]
      simp [List.range']

theorem buildGroups_length (n : Nat) (starts : List Nat) (idx : Nat) :
    (buildGroups n starts idx).length = starts.length := by
  have := congrArg List.length (buildGroups_index n starts idx)
  simpa using this

theorem buildGroups_start_mem (n : Nat) (starts : List Nat) (idx : Nat)
    (hp : List.Pairwise (· < ·) starts) :
    ∀ g ∈ buildGroups n starts idx,
      g.start ∈ starts ∧ ∀ i, g.start < i → i ≤ g.stop → i ∉ starts := by
  induction starts generalizing idx with
  | nil => intro g hg; simp [buildGroups] at hg
  | cons s rest ih =>
    cases rest with
    | nil =>
      intro g hg
      rcases List.mem_singleton.mp hg with rfl
      refine ⟨by simp, ?_⟩
      intro i hi _ hmem
      rcases List.mem_singleton.mp hmem with rfl
      exact Nat.lt_irrefl _ hi
    | cons s' rest' =>
      intro g hg
      have hp' := List.pairwise_cons.mp hp
      rcases List.mem_cons.mp hg with rfl | hg'
      · refine ⟨by simp, ?_⟩
        intro i hi hi2 hmem
        show False
        have hstop : (⟨s, s' - 1, s' - 1 - s + 1, idx⟩ : MajorGroup).stop = s' - 1 := rfl
        rw [hstop] at hi2
        have hss' : s < s' := hp'.1 s' (by simp)
        rcases List.mem_cons.mp hmem with rfl | hmem'
        · exact Nat.lt_irrefl _ hi
        · have : s' ≤ i := by
            rcases List.mem_cons.mp hmem' with rfl | hmem''
            · exact Nat.le_refl _
            · exact Nat.le_of_lt ((List.pairwise_cons.mp hp'.2).1 i hmem'')
          omega
      · have hrec := ih (idx + 1) hp'.2 g hg'
        refine ⟨List.mem_cons_of_mem _ hrec.1, ?_⟩
        intro i hi hi2 hmem
        rcases List.mem_cons.mp hmem with heq | hmem'
        · have hgs : s' ≤ g.start := by
            rcases List.mem_cons.mp hrec.1 with h1 | h1
            · exact Nat.le_of_eq h1.symm
            · exact Nat.le_of_lt ((List.pairwise_cons.mp hp'.2).1 g.start h1)
          have hss' : s < s' := hp'.1 s' (by simp)
          omega
        · exact hrec.2 i hi hi2 hmem'

/-! ### Facts about `nullIndices` -/

theorem nullIndices_pairwise (df : DataFrame) :
    List.Pairwise (· < ·) (nullIndices df) :=
  List.Pairwise.sublist (List.filter_sublist _) (List.pairwise_lt_range _)

theorem nullIndices_lt (df : DataFrame) : ∀ x ∈ nullIndices df, x < df.rows.length :=
  fun _ hx => List.mem_range.mp (List.mem_filter.mp hx).1

theorem mem_nullIndices (df : DataFrame) (i : Nat) :
    i ∈ nullIndices df ↔
      i < df.rows.length ∧ cellAt df i "dumb_time" = Cell.null := by
  simp [nullIndices, List.mem_filter, List.mem_range]

theorem nullIndices_head0 (df : DataFrame) (h0 : 0 < df.rows.length)
    (hnull : cellAt df 0 "dumb_time" = Cell.null) :
    ∃ rest, nullIndices df = 0 :: rest := by
  obtain ⟨m, hm⟩ : ∃ m, df.rows.length = m + 1 := ⟨df.rows.length - 1, by omega⟩
  unfold nullIndices
  rw [hm, List.range_succ_eq_map, List.filter_cons]
  simp only [hnull, decide_True]
  exact ⟨_, rfl⟩

/-! ### Partition consequences of `Spans` -/

theorem Spans.head_start {a n : Nat} {g : MajorGroup} {gs : List MajorGroup}
    (h : Spans a n (g :: gs)) : g.start = a := by
  cases h; assumption

theorem Spans.sum_sizes {a n : Nat} {gs : List MajorGroup} (h : Spans a n gs)
    (hsz : ∀ g ∈ gs, g.size = g.stop + 1 - g.start) :
    (gs.map (fun g => g.size)).sum = n - a := by
  induction h with
  | nil n => simp
  | cons g gs a n hstart hle hlt hrest ih =>
    have h1 : g.size = g.stop + 1 - g.start := hsz g (by simp)
    have h2 := ih (fun g' hg' => hsz g' (List.mem_cons_of_mem _ hg'))
    have h3 : g.stop + 1 ≤ n := hrest.le_of
    simp only [List.map_cons, List.sum_cons, h1, h2, hstart]
    omega

theorem Spans.chain {a n : Nat} {gs : List MajorGroup} (h : Spans a n gs) :
    List.Chain' (fun g g' => g'.start = g.stop + 1) gs := by
  induction h with
  | nil n => simp
  | cons g gs a n hstart hle hlt hrest ih =>
    rw [List.chain'_cons']
    refine ⟨?_, ih⟩
    intro g' hg'
    cases gs with
    | nil => simp at hg'
    | cons g2 t =>
      simp only [List.head?_cons, Option.mem_def, Option.some.injEq] at hg'
      subst hg'
      exact hrest.head_start

theorem Spans.pairwise_start {a n : Nat} {gs : List MajorGroup} (h : Spans a n gs) :
    List.Pairwise (fun g g' => g.start < g'.start) gs := by
  induction h with
  | nil n => simp
  | cons g gs a n hstart hle hlt hrest ih =>
    refine List.pairwise_cons.mpr ⟨?_, ih⟩
    intro g' hg'
    have := hrest.mem_bounds g' hg'
    omega

theorem Spans.countP_one {a n : Nat} {gs : List MajorGroup} (h : Spans a n gs)
    (i : Nat) (hi : a ≤ i) (hin : i < n) :
    gs.countP (fun g => decide (g.start ≤ i) && decide (i ≤ g.stop)) = 1 := by
  induction h with
  | nil n => omega
  | cons g gs a n hstart hle hlt hrest ih =>
    rw [List.countP_cons]
    by_cases hc : i ≤ g.stop
    · have hhead : (decide (g.start ≤ i) && decide (i ≤ g.stop)) = true := by
        rw [hstart]
        simp [hi, hc]
      have htail : gs.countP (fun g => decide (g.start ≤ i) && decide (i ≤ g.stop)) = 0 := by
        rw [List.countP_eq_zero]
        intro g' hg'
        have := hrest.mem_bounds g' hg'
        simp only [Bool.and_eq_true, decide_eq_true_eq, not_and]
        intro hle'
        omega
      rw [htail, hhead]
      simp
    · have hhead : (decide (g.start ≤ i) && decide (i ≤ g.stop)) = false := by
        simp [hc]
      rw [hhead, ih (by omega) hin]
      simp

/-! ### Mask lemmas -/

theorem setFrom_length (s e : Nat) : ∀ (m : List Bool) (j : Nat),
    (setFrom s e j m).length = m.length := by
  intro m
  induction m with
  | nil => intro j; rfl
  | cons b bs ih => intro j; simp [setFrom, ih]

theorem setFrom_getD (s e : Nat) : ∀ (m : List Bool) (j i : Nat),
    ((setFrom s e j m).getD i false = true) ↔
      ((s ≤ j + i ∧ j + i ≤ e ∧ i < m.length) ∨ m.getD i false = true) := by
  intro m
  induction m with
  | nil => intro j i; simp [setFrom]
  | cons b bs ih =>
    intro j i
    cases i with
    | zero =>
      show ((if s ≤ j && j ≤ e then true else b) = true) ↔ _
      by_cases hc : s ≤ j ∧ j ≤ e
      · simp [hc.1, hc.2]
      · have : (s ≤ j && j ≤ e) = false := by
          rcases Nat.lt_or_ge j s with h | h
          · simp; omega
          · rcases Nat.lt_or_ge e j with h2 | h2
            · simp; omega
            · exact absurd ⟨h, h2⟩ hc
        rw [this]
        simp only [List.getD_cons_zero]
        constructor
        · intro hb; exact Or.inr hb
        · rintro (⟨h1, h2, _⟩ | hb)
          · simp at h1 h2; exact absurd ⟨by omega, by omega⟩ hc
          · exact hb
    | succ i =>
      show ((setFrom s e (j + 1) bs).getD i false = true) ↔ _
      rw [ih (j + 1) i]
      constructor
      · rintro (⟨h1, h2, h3⟩ | h)
        · left
          refine ⟨by omega, by omega, ?_⟩
          simp only [List.length_cons]
          omega
        · right; simpa using h
      · rintro (⟨h1, h2, h3⟩ | h)
        · left
          simp only [List.length_cons] at h3
          exact ⟨by omega, by omega, by omega⟩
        · right; simpa using h

theorem replicate_getD_false : ∀ (n i : Nat), (List.replicate n false).getD i false = false := by
  intro n
  induction n with
  | zero => intro i; rfl
  | succ n ih =>
    intro i
    cases i with
    | zero => rfl
    | succ i => exact ih i

theorem keepMask_foldl_aux (keep : List Nat) :
    ∀ (gs : List MajorGroup) (m : List Bool),
      ((gs.foldl (fun m g =>
          if g.group_index ∈ keep then setFrom g.start g.stop 0 m else m) m).length
        = m.length) ∧
      ∀ i, ((gs.foldl (fun m g =>
          if g.group_index ∈ keep then setFrom g.start g.stop 0 m else m) m).getD i false
            = true) ↔
        (m.getD i false = true ∨ (covers keep gs i = true ∧ i < m.length)) := by
  intro gs
  induction gs with
  | nil =>
    intro m
    refine ⟨rfl, ?_⟩
    intro i
    simp [covers]
  | cons g gs ih =>
    intro m
    set m' := if g.group_index ∈ keep then setFrom g.start g.stop 0 m else m with hm'
    have hlen : m'.length = m.length := by
      rw [hm']
      by_cases hk : g.group_index ∈ keep
      · simp [hk, setFrom_length]
      · simp [hk]
    have hstep : ∀ i, (m'.getD i false = true) ↔
        (m.getD i false = true ∨
          (g.group_index ∈ keep ∧ g.start ≤ i ∧ i ≤ g.stop ∧ i < m.length)) := by
      intro i
      rw [hm']
      by_cases hk : g.group_index ∈ keep
      · simp only [if_pos hk]
        rw [setFrom_getD]
        simp only [Nat.zero_add]
        constructor
        · rintro (⟨h1, h2, h3⟩ | h)
          · exact Or.inr ⟨hk, h1, h2, h3⟩
          · exact Or.inl h
        · rintro (h | ⟨_, h1, h2, h3⟩)
          · exact Or.inr h
          · exact Or.inl ⟨h1, h2, h3⟩
      · simp only [if_neg hk]
        constructor
        · intro h; exact Or.inl h
        · rintro (h | ⟨hk2, _⟩)
          · exact h
          · exact absurd hk2 hk
    obtain ⟨ihlen, ihgetD⟩ := ih m'
    refine ⟨by rw [List.foldl_cons, ← hm', ihlen, hlen], ?_⟩
    intro i
    rw [List.foldl_cons, ← hm', ihgetD i, hlen]
    have hcov : (covers keep (g :: gs) i = true) ↔
        ((g.group_index ∈ keep ∧ g.start ≤ i ∧ i ≤ g.stop) ∨ covers keep gs i = true) := by
      simp [covers, List.any_cons, and_assoc]
    rw [hstep i]
    rw [hcov]
    tauto

theorem keepMask_length (n : Nat) (keep : List Nat) (gs : List MajorGroup) :
    (keepMask n keep gs).length = n := by
  have := (keepMask_foldl_aux keep gs (List.replicate n false)).1
  simpa [keepMask] using this

theorem keepMask_getD (n : Nat) (keep : List Nat) (gs : List MajorGroup) (i : Nat) :
    ((keepMask n keep gs).getD i false = true) ↔ (covers keep gs i = true ∧ i < n) := by
  have := (keepMask_foldl_aux keep gs (List.replicate n false)).2 i
  rw [keepMask]
  rw [this, replicate_getD_false]
  simp

/-! ### `maskOfFrom` and `filterMask` -/

theorem maskOfFrom_length (p : Nat → Bool) : ∀ (n j : Nat), (maskOfFrom p j n).length = n := by
  intro n
  induction n with
  | zero => intro j; rfl
  | succ n ih => intro j; simp [maskOfFrom, ih]

theorem maskOfFrom_getD (p : Nat → Bool) :
    ∀ (n j i : Nat), i < n → (maskOfFrom p j n).getD i false = p (j + i) := by
  intro n
  induction n with
  | zero => intro j i h; omega
  | succ n ih =>
    intro j i h
    cases i with
    | zero => simp [maskOfFrom]
    | succ i =>
      show (maskOfFrom p (j + 1) n).getD i false = _
      rw [ih (j + 1) i (by omega)]
      congr 1
      omega

theorem maskOfFrom_append (p : Nat → Bool) :
    ∀ (x y j : Nat), maskOfFrom p j (x + y) = maskOfFrom p j x ++ maskOfFrom p (j + x) y := by
  intro x
  induction x with
  | zero => intro y j; simp [maskOfFrom]
  | succ x ih =>
    intro y j
    have h1 : x + 1 + y = (x + y) + 1 := by omega
    rw [h1]
    show p j :: maskOfFrom p (j + 1) (x + y) = (p j :: maskOfFrom p (j + 1) x) ++ _
    rw [ih y (j + 1)]
    simp only [List.cons_append]
    congr 3
    omega

theorem keepMask_eq_maskOfFrom (n : Nat) (keep : List Nat) (gs : List MajorGroup) :
    keepMask n keep gs = maskOfFrom (covers keep gs) 0 n := by
  refine List.ext_getElem (by rw [keepMask_length, maskOfFrom_length]) ?_
  intro i h1 h2
  rw [← List.getD_eq_getElem _ false h1, ← List.getD_eq_getElem _ false h2]
  rw [keepMask_length] at h1
  rw [maskOfFrom_getD _ _ _ _ (by rwa [maskOfFrom_length] at h2)]
  simp only [Nat.zero_add]
  cases hc : covers keep gs i with
  | false =>
    cases hval : (keepMask n keep gs).getD i false with
    | false => rfl
    | true =>
      have := (keepMask_getD n keep gs i).mp hval
      rw [hc] at this
      simp at this
  | true => exact (keepMask_getD n keep gs i).mpr ⟨hc, h1⟩

theorem filterMask_nil_mask {α : Type} (l : List α) : filterMask l [] = [] := by
  simp [filterMask]

theorem filterMask_append {α : Type} (A B : List α) (ma mb : List Bool)
    (h : ma.length = A.length) :
    filterMask (A ++ B) (ma ++ mb) = filterMask A ma ++ filterMask B mb := by
  unfold filterMask
  rw [List.zip_append h.symm, List.filter_append, List.map_append]

theorem filterMask_cons {α : Type} (r : α) (rs : List α) (b : Bool) (m : List Bool) :
    filterMask (r :: rs) (b :: m) =
      if b = true then r :: filterMask rs m else filterMask rs m := by
  unfold filterMask
  rw [List.zip_cons_cons, List.filter_cons]
  cases b <;> simp

theorem filterMask_true {α : Type} (A : List α) (p : Nat → Bool) (j : Nat)
    (hp : ∀ i, i < A.length → p (j + i) = true) :
    filterMask A (maskOfFrom p j A.length) = A := by
  induction A generalizing j with
  | nil => rfl
  | cons r rs ih =>
    show filterMask (r :: rs) (p j :: maskOfFrom p (j + 1) rs.length) = r :: rs
    have h0 : p j = true := by have := hp 0 (by simp); simpa using this
    rw [filterMask_cons, if_pos h0]
    rw [ih (j + 1) (fun i hi => by
      have := hp (i + 1) (by simp; omega)
      have harith : j + (i + 1) = j + 1 + i := by omega
      rwa [harith] at this)]

theorem filterMask_false {α : Type} (A : List α) (p : Nat → Bool) (j : Nat)
    (hp : ∀ i, i < A.length → p (j + i) = false) :
    filterMask A (maskOfFrom p j A.length) = [] := by
  induction A generalizing j with
  | nil => rfl
  | cons r rs ih =>
    show filterMask (r :: rs) (p j :: maskOfFrom p (j + 1) rs.length) = []
    have h0 : p j = false := by have := hp 0 (by simp); simpa using this
    rw [filterMask_cons, if_neg (by rw [h0]; exact Bool.false_ne_true)]
    exact ih (j + 1) (fun i hi => by
      have := hp (i + 1) (by simp; omega)
      have harith : j + (i + 1) = j + 1 + i := by omega
      rwa [harith] at this)

/-! ### The mask filter over a tiling is the concatenation of kept segments -/

theorem covers_cons (keep : List Nat) (g : MajorGroup) (gs : List MajorGroup) (j : Nat) :
    covers keep (g :: gs) j =
      ((decide (g.group_index ∈ keep) && decide (g.start ≤ j) && decide (j ≤ g.stop))
        || covers keep gs j) := by
  simp [covers, List.any_cons]

theorem covers_eq_false_of_lt (keep : List Nat) (gs : List MajorGroup) (b i : Nat)
    (hgs : ∀ g' ∈ gs, b ≤ g'.start) (hib : i < b) : covers keep gs i = false := by
  refine List.any_eq_false.mpr ?_
  intro g' hg'
  have hb' := hgs g' hg'
  have hfalse : decide (g'.start ≤ i) = false := by simp; omega
  simp [hfalse]

theorem Spans.filter_flatMap {a n : Nat} {gs : List MajorGroup} (h : Spans a n gs) :
    ∀ (R : List (List Cell)), R.length = n → ∀ (keep : List Nat) (p : Nat → Bool),
      (∀ i, a ≤ i → i < n → p i = covers keep gs i) →
      filterMask (R.drop a) (maskOfFrom p a (n - a)) =
        (gs.filter (fun g => decide (g.group_index ∈ keep))).flatMap
          (fun g => segRows R g.start g.stop) := by
  induction h with
  | nil n =>
    intro R hR keep p hp
    have : n - n = 0 := by omega
    rw [this]
    show filterMask (R.drop n) [] = _
    rw [filterMask_nil_mask]
    simp
  | cons g gs a n hstart hle hlt hrest ih =>
    intro R hR keep p hp
    have hbn : g.stop + 1 ≤ n := hrest.le_of
    have hab : a < g.stop + 1 := by omega
    have hmem := hrest.mem_bounds
    -- split the rows and the mask at the end of the head group
    have hsplit : R.drop a =
        ((R.drop a).take (g.stop + 1 - a)) ++ ((R.drop a).drop (g.stop + 1 - a)) :=
      (List.take_append_drop _ _).symm
    have hdd : (R.drop a).drop (g.stop + 1 - a) = R.drop (g.stop + 1) := by
      rw [List.drop_drop]
      congr 1
      omega
    have hseg : (R.drop a).take (g.stop + 1 - a) = segRows R g.start g.stop := by
      rw [segRows, hstart]
    have hlen1 : ((R.drop a).take (g.stop + 1 - a)).length = g.stop + 1 - a := by
      rw [List.length_take, List.length_drop, hR]
      omega
    have harith : n - a = (g.stop + 1 - a) + (n - (g.stop + 1)) := by omega
    rw [harith, maskOfFrom_append]
    have harith2 : a + (g.stop + 1 - a) = g.stop + 1 := by omega
    rw [harith2]
    conv_lhs => rw [hsplit]
    rw [filterMask_append _ _ _ _ (by rw [maskOfFrom_length, hlen1])]
    -- the head-group part of the mask is constantly the kept-bit of `g`
    have hpfirst : ∀ i, i < g.stop + 1 - a → p (a + i) = decide (g.group_index ∈ keep) := by
      intro i hi
      have h1 : a ≤ a + i := by omega
      have h2 : a + i < n := by omega
      rw [hp (a + i) h1 h2, covers_cons]
      have htail : covers keep gs (a + i) = false :=
        covers_eq_false_of_lt keep gs (g.stop + 1) (a + i)
          (fun g' hg' => (hmem g' hg').1) (by omega)
      have hs1 : decide (g.start ≤ a + i) = true := by simp [hstart]
      have hs2 : decide (a + i ≤ g.stop) = true := by simp; omega
      rw [htail, hs1, hs2]
      simp
    -- the tail of the mask agrees with the coverage of the remaining groups
    have hptail : ∀ i, g.stop + 1 ≤ i → i < n → p i = covers keep gs i := by
      intro i hi1 hi2
      rw [hp i (by omega) hi2, covers_cons]
      have hs2 : decide (i ≤ g.stop) = false := by simp; omega
      rw [hs2]
      simp
    have hrec := ih R hR keep p hptail
    rw [hdd, hrec]
    rw [List.filter_cons]
    by_cases hk : g.group_index ∈ keep
    · have hkd : decide (g.group_index ∈ keep) = true := by simp [hk]
      rw [if_pos (by rw [hkd])]
      rw [List.flatMap_cons]
      congr 1
      rw [← hseg]
      have := filterMask_true ((R.drop a).take (g.stop + 1 - a)) p a
        (fun i hi => by rw [hpfirst i (by rwa [hlen1] at hi), hkd])
      rwa [hlen1] at this
    · have hkd : decide (g.group_index ∈ keep) = false := by simp [hk]
      rw [if_neg (by rw [hkd]; exact Bool.false_ne_true)]
      have := filterMask_false ((R.drop a).take (g.stop + 1 - a)) p a
        (fun i hi => by rw [hpfirst i (by rwa [hlen1] at hi), hkd])
      rw [hlen1] at this
      rw [this]
      simp

theorem filterMask_covers_eq (R : List (List Cell)) (n : Nat) (hn : R.length = n)
    (gs : List MajorGroup) (a : Nat) (h : Spans a n gs) (keep : List Nat) :
    filterMask R (maskOfFrom (covers keep gs) 0 n) =
      (gs.filter (fun g => decide (g.group_index ∈ keep))).flatMap
        (fun g => segRows R g.start g.stop) := by
  have han : a ≤ n := h.le_of
  have harith : n = a + (n - a) := by omega
  conv_lhs => rw [harith, maskOfFrom_append]
  conv_lhs => rw [show R = R.take a ++ R.drop a from (List.take_append_drop _ _).symm]
  have hlenA : (R.take a).length = a := by
    rw [List.length_take]
    omega
  rw [filterMask_append _ _ _ _ (by rw [maskOfFrom_length, hlenA])]
  have hfirst := filterMask_false (R.take a) (covers keep gs) 0
    (fun i hi => by
      rw [hlenA] at hi
      exact covers_eq_false_of_lt keep gs a (0 + i)
        (fun g' hg' => (h.mem_bounds g' hg').1) (by omega))
  rw [hlenA] at hfirst
  rw [hfirst, Nat.zero_add]
  rw [h.filter_flatMap R hn keep (covers keep gs) (fun i _ _ => rfl)]
  simp

theorem remove_rows_eq_flatMap (df : DataFrame) (gs : List MajorGroup) (a : Nat)
    (h : Spans a df.rows.length gs) (keep : List Nat) :
    (remove_duplicate_groups df keep gs).rows =
      (gs.filter (fun g => decide (g.group_index ∈ keep))).flatMap
        (fun g => segRows df.rows g.start g.stop) := by
  show filterMask df.rows (keepMask df.rows.length keep gs) = _
  rw [keepMask_eq_maskOfFrom]
  exact filterMask_covers_eq df.rows df.rows.length rfl gs a h keep

/-! ### Generic bucket lemmas (`defaultdict(list)` with ordered keys) -/

section Buckets

variable {κ α : Type} [DecidableEq κ]

theorem addToBuckets_keys (bs : List (κ × List α)) (k : κ) (a : α) :
    (addToBuckets bs k a).map Prod.fst =
      if k ∈ bs.map Prod.fst then bs.map Prod.fst else bs.map Prod.fst ++ [k] := by
  induction bs with
  | nil => simp [addToBuckets]
  | cons b rest ih =>
    obtain ⟨k', l⟩ := b
    by_cases hk : k' = k
    · subst hk
      simp [addToBuckets]
    · show (addToBuckets ((k', l) :: rest) k a).map Prod.fst = _
      rw [show addToBuckets ((k', l) :: rest) k a
            = (k', l) :: addToBuckets rest k a from by simp [addToBuckets, hk]]
      simp only [List.map_cons, ih, List.mem_cons]
      have hne : ¬(k = k') := fun h => hk h.symm
      by_cases hmem : k ∈ rest.map Prod.fst
      · simp [hmem, hne]
      · simp [hmem, hne]

theorem addToBuckets_inv (f : α → κ) (bs : List (κ × List α)) (a : α)
    (h : BucketsInv f bs) : BucketsInv f (addToBuckets bs (f a) a) := by
  obtain ⟨hb, hkeys⟩ := h
  constructor
  · induction bs with
    | nil =>
      intro b hbmem
      simp only [addToBuckets, List.mem_singleton] at hbmem
      subst hbmem
      exact ⟨by simp, by simp⟩
    | cons b0 rest ih =>
      obtain ⟨k', l⟩ := b0
      by_cases hk : k' = f a
      · intro b hbmem
        rw [show addToBuckets ((k', l) :: rest) (f a) a
              = (k', l ++ [a]) :: rest from by simp [addToBuckets, hk]] at hbmem
        rcases List.mem_cons.mp hbmem with heq | hbmem
        · subst heq
          refine ⟨by simp, ?_⟩
          intro x hx
          rcases List.mem_append.mp hx with hx | hx
          · exact (hb _ (List.mem_cons_self _ _)).2 x hx
          · rcases List.mem_singleton.mp hx with rfl
            exact hk.symm
        · exact hb b (List.mem_cons_of_mem _ hbmem)
      · intro b hbmem
        rw [show addToBuckets ((k', l) :: rest) (f a) a
              = (k', l) :: addToBuckets rest (f a) a from by simp [addToBuckets, hk]] at hbmem
        rcases List.mem_cons.mp hbmem with rfl | hbmem
        · exact hb _ (by simp)
        · exact ih (fun b' hb' => hb b' (List.mem_cons_of_mem _ hb'))
            (List.Nodup.of_cons (by simpa using hkeys)) b hbmem
  · rw [addToBuckets_keys]
    by_cases hmem : f a ∈ bs.map Prod.fst
    · simpa [hmem] using hkeys
    · rw [if_neg hmem]
      have : ((bs.map Prod.fst) ++ [f a]).Perm (f a :: bs.map Prod.fst) :=
        List.perm_append_singleton _ _
      exact this.symm.nodup (by simp [hmem, hkeys])

theorem foldl_buckets_inv (f : α → κ) (l : List α) :
    ∀ (bs0 : List (κ × List α)), BucketsInv f bs0 →
      BucketsInv f (l.foldl (fun bs x => addToBuckets bs (f x) x) bs0) := by
  induction l with
  | nil => intro bs0 h; exact h
  | cons x t ih =>
    intro bs0 h
    exact ih _ (addToBuckets_inv f bs0 x h)

theorem addToBuckets_flat_perm (bs : List (κ × List α)) (k : κ) (a : α) :
    ((addToBuckets bs k a).flatMap (fun b => b.2)).Perm
      ((bs.flatMap (fun b => b.2)) ++ [a]) := by
  induction bs with
  | nil => simp [addToBuckets]
  | cons b0 rest ih =>
    obtain ⟨k', l⟩ := b0
    by_cases hk : k' = k
    · rw [show addToBuckets ((k', l) :: rest) k a = (k', l ++ [a]) :: rest from by
        simp [addToBuckets, hk]]
      simp only [List.flatMap_cons]
      rw [List.append_assoc]
      rw [List.append_assoc]
      exact List.Perm.append_left l List.perm_append_comm
    · rw [show addToBuckets ((k', l) :: rest) k a = (k', l) :: addToBuckets rest k a from by
        simp [addToBuckets, hk]]
      simp only [List.flatMap_cons]
      rw [List.append_assoc]
      exact List.Perm.append_left l ih

theorem foldl_buckets_flat_perm (f : α → κ) (l : List α) :
    ∀ (bs0 : List (κ × List α)),
      ((l.foldl (fun bs x => addToBuckets bs (f x) x) bs0).flatMap (fun b => b.2)).Perm
        ((bs0.flatMap (fun b => b.2)) ++ l) := by
  induction l with
  | nil => intro bs0; simp
  | cons x t ih =>
    intro bs0
    refine List.Perm.trans (ih (addToBuckets bs0 (f x) x)) ?_
    refine List.Perm.trans
      (((addToBuckets_flat_perm bs0 (f x) x)).append_right t) ?_
    rw [List.append_assoc]
    simp

theorem headD_mem_of_ne_nil (d : α) (l : List α) (h : l ≠ []) : l.headD d ∈ l := by
  cases l with
  | nil => exact absurd rfl h
  | cons x t => simp

theorem perm_shuffle (t H T : List α) : (t ++ (H ++ T)).Perm (H ++ (t ++ T)) := by
  rw [← List.append_assoc, ← List.append_assoc]
  exact List.perm_append_comm.append_right T

theorem flat_perm_heads_tails (d : α) (bs : List (κ × List α))
    (hne : ∀ b ∈ bs, b.2 ≠ []) :
    (bs.flatMap (fun b => b.2)).Perm
      ((bs.map (fun b => b.2.headD d)) ++ (bs.flatMap (fun b => b.2.drop 1))) := by
  induction bs with
  | nil => simp
  | cons b0 rest ih =>
    obtain ⟨k', l⟩ := b0
    have hl : l ≠ [] := hne _ (List.mem_cons_self _ _)
    obtain ⟨h, t, rfl⟩ : ∃ h t, l = h :: t := by
      cases l with
      | nil => exact absurd rfl hl
      | cons h t => exact ⟨h, t, rfl⟩
    simp only [List.flatMap_cons, List.map_cons, List.headD_cons, List.drop_succ_cons,
      List.drop_zero, List.cons_append]
    refine List.Perm.cons h ?_
    refine List.Perm.trans (List.Perm.append_left t
      (ih (fun b hb => hne b (List.mem_cons_of_mem _ hb)))) ?_
    exact perm_shuffle t _ _

end Buckets

/-! ### Structure of `find_duplicate_groups` -/

theorem sig_buckets_inv (df : DataFrame) (gs : List MajorGroup) :
    BucketsInv (sigOf df) (group_signature_buckets df gs) := by
  have h0 : BucketsInv (sigOf df) ([] : List (String × List MajorGroup)) := by
    constructor
    · intro b hb; simp at hb
    · simp
  exact foldl_buckets_inv (sigOf df) gs [] h0

theorem sig_buckets_flat_perm (df : DataFrame) (gs : List MajorGroup) :
    ((group_signature_buckets df gs).flatMap (fun b => b.2)).Perm gs := by
  have := foldl_buckets_flat_perm (sigOf df) gs []
  simpa using this

theorem gs_perm_unique_dups (df : DataFrame) (gs : List MajorGroup) :
    gs.Perm ((find_duplicate_groups df gs).1 ++ (find_duplicate_groups df gs).2.1) := by
  refine List.Perm.trans (sig_buckets_flat_perm df gs).symm ?_
  exact flat_perm_heads_tails defaultGroup _ (fun b hb => ((sig_buckets_inv df gs).1 b hb).1)

theorem unique_sig_eq_key (df : DataFrame) (gs : List MajorGroup) :
    (group_signature_buckets df gs).map
        (fun b => sigOf df (b.2.headD defaultGroup)) =
      (group_signature_buckets df gs).map Prod.fst := by
  refine List.map_congr_left ?_
  intro b hb
  have hinv := (sig_buckets_inv df gs).1 b hb
  exact hinv.2 _ (headD_mem_of_ne_nil _ _ hinv.1)

theorem unique_sigs_nodup (df : DataFrame) (gs : List MajorGroup) :
    (((find_duplicate_groups df gs).1).map (sigOf df)).Nodup := by
  show ((group_signature_buckets df gs).map
    (fun b => b.2.headD defaultGroup)).map (sigOf df) |>.Nodup
  rw [List.map_map]
  rw [show (sigOf df ∘ fun b => b.2.headD defaultGroup)
        = (fun (b : String × List MajorGroup) => sigOf df (b.2.headD defaultGroup)) from rfl]
  rw [unique_sig_eq_key df gs]
  exact (sig_buckets_inv df gs).2

theorem kept_of_mem_unique (df : DataFrame) (gs : List MajorGroup) :
    ∀ g ∈ (find_duplicate_groups df gs).1,
      g.group_index ∈ (find_duplicate_groups df gs).2.2 := by
  intro g hg
  show g.group_index ∈ (group_signature_buckets df gs).map
    (fun b => (b.2.headD defaultGroup).group_index)
  rcases List.mem_map.mp hg with ⟨b, hb, rfl⟩
  exact List.mem_map.mpr ⟨b, hb, rfl⟩

theorem not_kept_of_mem_dups (df : DataFrame) (gs : List MajorGroup)
    (hidx : (gs.map (fun g => g.group_index)).Nodup) :
    ∀ g ∈ (find_duplicate_groups df gs).2.1,
      g.group_index ∉ (find_duplicate_groups df gs).2.2 := by
  intro g hg hk
  have hperm := gs_perm_unique_dups df gs
  have hmapperm := hperm.map (fun g => g.group_index)
  have hnodup2 : (((find_duplicate_groups df gs).1 ++
      (find_duplicate_groups df gs).2.1).map (fun g => g.group_index)).Nodup :=
    hidx.perm hmapperm
  rw [List.map_append] at hnodup2
  have hdisj := List.disjoint_of_nodup_append hnodup2
  rcases List.mem_map.mp hk with ⟨b, hb, hbeq⟩
  have hu : (b.2.headD defaultGroup).group_index ∈
      ((find_duplicate_groups df gs).1).map (fun g => g.group_index) := by
    refine List.mem_map.mpr ⟨b.2.headD defaultGroup, ?_, rfl⟩
    exact List.mem_map.mpr ⟨b, hb, rfl⟩
  have hd : g.group_index ∈
      ((find_duplicate_groups df gs).2.1).map (fun g => g.group_index) :=
    List.mem_map.mpr ⟨g, hg, rfl⟩
  rw [hbeq] at hu
  exact hdisj hu hd

theorem filter_kept_perm_unique (df : DataFrame) (gs : List MajorGroup)
    (hidx : (gs.map (fun g => g.group_index)).Nodup) :
    (gs.filter (fun g => decide (g.group_index ∈ (find_duplicate_groups df gs).2.2))).Perm
      (find_duplicate_groups df gs).1 := by
  have hperm := (gs_perm_unique_dups df gs).filter
    (fun g => decide (g.group_index ∈ (find_duplicate_groups df gs).2.2))
  rw [List.filter_append] at hperm
  have hU : ((find_duplicate_groups df gs).1).filter
      (fun g => decide (g.group_index ∈ (find_duplicate_groups df gs).2.2)) =
      (find_duplicate_groups df gs).1 := by
    rw [List.filter_eq_self]
    intro g hg
    simpa using kept_of_mem_unique df gs g hg
  have hD : ((find_duplicate_groups df gs).2.1).filter
      (fun g => decide (g.group_index ∈ (find_duplicate_groups df gs).2.2)) = [] := by
    rw [List.filter_eq_nil_iff]
    intro g hg
    simpa using not_kept_of_mem_dups df gs hidx g hg
  rw [hU, hD] at hperm
  simpa using hperm

theorem filter_not_kept_perm_dups (df : DataFrame) (gs : List MajorGroup)
    (hidx : (gs.map (fun g => g.group_index)).Nodup) :
    (gs.filter (fun g =>
        !(decide (g.group_index ∈ (find_duplicate_groups df gs).2.2)))).Perm
      (find_duplicate_groups df gs).2.1 := by
  have hperm := (gs_perm_unique_dups df gs).filter
    (fun g => !(decide (g.group_index ∈ (find_duplicate_groups df gs).2.2)))
  rw [List.filter_append] at hperm
  have hU : ((find_duplicate_groups df gs).1).filter
      (fun g => !(decide (g.group_index ∈ (find_duplicate_groups df gs).2.2))) = [] := by
    rw [List.filter_eq_nil_iff]
    intro g hg
    simpa using kept_of_mem_unique df gs g hg
  have hD : ((find_duplicate_groups df gs).2.1).filter
      (fun g => !(decide (g.group_index ∈ (find_duplicate_groups df gs).2.2))) =
      (find_duplicate_groups df gs).2.1 := by
    rw [List.filter_eq_self]
    intro g hg
    simpa using not_kept_of_mem_dups df gs hidx g hg
  rw [hU, hD] at hperm
  simpa using hperm

/-! ### `identify_major_groups` facts -/

theorem identify_spans (df : DataFrame) (s : Nat) (rest : List Nat)
    (h : nullIndices df = s :: rest) :
    Spans s df.rows.length (identify_major_groups df) := by
  have hp := nullIndices_pairwise df
  have hb := nullIndices_lt df
  rw [h] at hp hb
  rw [identify_major_groups, h]
  exact buildGroups_spans _ s rest 0 hp hb

theorem identify_sizes (df : DataFrame) :
    ∀ g ∈ identify_major_groups df, g.size = g.stop + 1 - g.start :=
  buildGroups_size _ _ 0 (nullIndices_pairwise df) (nullIndices_lt df)

theorem identify_idx (df : DataFrame) :
    (identify_major_groups df).map (fun g => g.group_index) =
      List.range' 0 (nullIndices df).length :=
  buildGroups_index _ _ 0

theorem identify_idx_nodup (df : DataFrame) :
    ((identify_major_groups df).map (fun g => g.group_index)).Nodup := by
  rw [identify_idx]
  exact List.nodup_range' _ _

theorem identify_empty (df : DataFrame) (h : nullIndices df = []) :
    identify_major_groups df = [] := by
  rw [identify_major_groups, h]
  rfl

theorem sum_map_filter_partition (l : List MajorGroup) (p : MajorGroup → Bool) :
    ((l.filter p).map (fun g => g.size)).sum
      + ((l.filter (fun x => !p x)).map (fun g => g.size)).sum
      = (l.map (fun g => g.size)).sum := by
  induction l with
  | nil => simp
  | cons x t ih =>
    cases hx : p x
    · simp only [List.filter_cons, hx, Bool.not_false, if_neg, List.map_cons, List.sum_cons]
      simp only [Bool.false_eq_true, if_false, if_true, List.map_cons, List.sum_cons]
      omega
    · simp only [List.filter_cons, hx, Bool.not_true, List.map_cons, List.sum_cons]
      simp only [Bool.false_eq_true, if_false, if_true, List.map_cons, List.sum_cons]
      omega

theorem seg_length (R : List (List Cell)) (g : MajorGroup)
    (hstop : g.stop < R.length) (hse : g.start ≤ g.stop) :
    (segRows R g.start g.stop).length = g.stop + 1 - g.start := by
  rw [segRows, List.length_take, List.length_drop]
  omega

theorem remove_length_eq (df : DataFrame) (gs : List MajorGroup) (a : Nat)
    (hs : Spans a df.rows.length gs)
    (hsz : ∀ g ∈ gs, g.size = g.stop + 1 - g.start) (keep : List Nat) :
    (remove_duplicate_groups df keep gs).rows.length =
      ((gs.filter (fun g => decide (g.group_index ∈ keep))).map (fun g => g.size)).sum := by
  rw [remove_rows_eq_flatMap df gs a hs keep, List.length_flatMap]
  congr 1
  refine List.map_congr_left ?_
  intro g hg
  have hmem : g ∈ gs := List.mem_of_mem_filter hg
  have hb := hs.mem_bounds g hmem
  show (segRows df.rows g.start g.stop).length = g.size
  rw [seg_length df.rows g hb.2.2 hb.2.1, hsz g hmem]

/-- C1 (amended): for every table whose first row is a boundary-start row (its
`dumb_time` cell is null) — or which is empty — the groups returned by
`identify_major_groups` partition the table exactly: sizes sum to the row
count, every row index is covered by exactly one group, groups are contiguous
and group start indices are strictly increasing. -/
theorem c1_groups_partition (df : DataFrame)
    (h : df.rows = [] ∨ cellAt df 0 "dumb_time" = Cell.null) :
    ((identify_major_groups df).map (fun g => g.size)).sum = df.rows.length
    ∧ (∀ i, i < df.rows.length →
        (identify_major_groups df).countP
          (fun g => decide (g.start ≤ i) && decide (i ≤ g.stop)) = 1)
    ∧ List.Chain' (fun g g' => g'.start = g.stop + 1) (identify_major_groups df)
    ∧ (identify_major_groups df).Pairwise (fun g g' => g.start < g'.start) := by
  by_cases hrows : df.rows = []
  · have h0 : nullIndices df = [] := by simp [nullIndices, hrows]
    rw [identify_empty df h0]
    simp [hrows]
  · have hnull : cellAt df 0 "dumb_time" = Cell.null := by
      rcases h with h | h
      · exact absurd h hrows
      · exact h
    have hlen : 0 < df.rows.length := List.length_pos.mpr hrows
    obtain ⟨rest, hni⟩ := nullIndices_head0 df hlen hnull
    have hs := identify_spans df 0 rest hni
    refine ⟨?_, ?_, hs.chain, hs.pairwise_start⟩
    · rw [hs.sum_sizes (identify_sizes df)]
      omega
    · intro i hi
      exact hs.countP_one i (Nat.zero_le i) hi

/-- C1 witness: the partition statement evaluated on the concrete frame `dfA`. -/
theorem c1_groups_partition_witness :
    ((identify_major_groups dfA).map (fun g => g.size)).sum = dfA.rows.length
    ∧ (∀ i, i < dfA.rows.length →
        (identify_major_groups dfA).countP
          (fun g => decide (g.start ≤ i) && decide (i ≤ g.stop)) = 1)
    ∧ List.Chain' (fun g g' => g'.start = g.stop + 1) (identify_major_groups dfA)
    ∧ (identify_major_groups dfA).Pairwise (fun g g' => g.start < g'.start) :=
  c1_groups_partition dfA (Or.inr (by decide))

/-- C1 counterexample: on a one-row table whose boundary cell is non-null the
groups of `identify_major_groups` do not partition the table — the group sizes
sum to 0 while the table has 1 row. -/
theorem c1_counterexample :
    ((identify_major_groups dfNoNull).map (fun g => g.size)).sum ≠
      dfNoNull.rows.length := by decide

/-- C7 (amended): for every non-empty table whose boundary column is null at
row 0, the first group returned by segmentation starts at row index 0. -/
theorem Spans.eq_of_nil {a n : Nat} (h : Spans a n ([] : List MajorGroup)) : a = n := by
  cases h
  rfl

theorem c7_first_group_start (df : DataFrame) (hne : df.rows ≠ [])
    (hnull : cellAt df 0 "dumb_time" = Cell.null) :
    ∃ g rest, identify_major_groups df = g :: rest ∧ g.start = 0 := by
  have hlen : 0 < df.rows.length := List.length_pos.mpr hne
  obtain ⟨rest, hni⟩ := nullIndices_head0 df hlen hnull
  have hs := identify_spans df 0 rest hni
  cases hgs : identify_major_groups df with
  | nil =>
    rw [hgs] at hs
    have := hs.eq_of_nil
    omega
  | cons g rest' =>
    rw [hgs] at hs
    exact ⟨g, rest', rfl, hs.head_start⟩

/-- C7 witness: on `dfA` the first group starts at row 0. -/
theorem c7_first_group_start_witness :
    ∃ g rest, identify_major_groups dfA = g :: rest ∧ g.start = 0 :=
  c7_first_group_start dfA (by decide) (by decide)

/-- C7 counterexample: a non-empty table whose boundary value at row 0 is
non-null; segmentation does not start its first group at index 0 (the single
group starts at row 1), refuting the "regardless of the boundary column's
value at row 0" part of the claim. -/
theorem c7_counterexample :
    dfStartsAt1.rows.length = 2 ∧
    (identify_major_groups dfStartsAt1).map (fun g => g.start) = [1] := by decide

/-! ### The signature as a function of the projected content (C2) -/

theorem create_group_signature_eq_proj (df : DataFrame) (s e : Nat) (sub : List String) :
    create_group_signature df s e sub =
      concatStr (((segRows df.rows s e).map
          (fun r => sub.map (fun c => lookupCell df.cols r c))).map
        (fun vs => pyJoin "|" (vs.map strCell) ++ "\n")) := by
  rw [create_group_signature, List.map_map]
  congr 1
  refine List.map_congr_left ?_
  intro r _
  show rowLine df.cols sub r =
    pyJoin "|" ((sub.map (fun c => lookupCell df.cols r c)).map strCell) ++ "\n"
  rw [rowLine, List.map_map]
  rfl

/-- C2: for every pair of groups whose cell contents over the column subset
are identical, in identical row order and with identical row count, the
signature function returns equal digests.  Null cells are `Cell.null` on both
sides and compare equal (`null_equals_null = true` is the code's only
behaviour: both null cells canonicalize to the same string). -/
theorem c2_signature_of_content (df1 df2 : DataFrame) (s1 e1 s2 e2 : Nat)
    (sub : List String)
    (h : (segRows df1.rows s1 e1).map (fun r => sub.map (fun c => lookupCell df1.cols r c))
       = (segRows df2.rows s2 e2).map (fun r => sub.map (fun c => lookupCell df2.cols r c))) :
    create_group_signature df1 s1 e1 sub = create_group_signature df2 s2 e2 sub := by
  rw [create_group_signature_eq_proj, create_group_signature_eq_proj, h]

/-- C2 witness: two concrete groups of `dfNulls` with identical content on the
compared columns, including a null cell in column `a` of each group, give
equal signatures. -/
theorem c2_signature_of_content_witness :
    create_group_signature dfNulls 0 1 ["a", "b"] =
      create_group_signature dfNulls 2 3 ["a", "b"] :=
  c2_signature_of_content dfNulls dfNulls 0 1 2 3 ["a", "b"] (by decide)

/-! ### Character-level analysis of the canonical buffer (C3) -/

theorem strData_append (s t : String) : (s ++ t).data = s.data ++ t.data := by
  cases s
  cases t
  rfl

theorem strData_inj {s t : String} (h : s.data = t.data) : s = t := by
  cases s
  cases t
  exact congrArg String.mk h

theorem pyJoin_data (l : List String) :
    (pyJoin "|" l).data = encRow (l.map String.data) := by
  induction l with
  | nil => rfl
  | cons v rest ih =>
    cases rest with
    | nil => rfl
    | cons v' rest' =>
      show (v ++ "|" ++ pyJoin "|" (v' :: rest')).data = _
      rw [strData_append, strData_append, ih, List.append_assoc]
      rfl

theorem concatStr_data_aux (l : List String) :
    ∀ (a : String), (l.foldl (fun x y => x ++ y) a).data =
      a.data ++ (l.map String.data).flatten := by
  induction l with
  | nil => intro a; simp
  | cons s t ih =>
    intro a
    show (t.foldl (fun x y => x ++ y) (a ++ s)).data = _
    rw [ih (a ++ s), strData_append, List.append_assoc]
    rfl

theorem concatStr_data (l : List String) :
    (concatStr l).data = (l.map String.data).flatten := by
  rw [concatStr, concatStr_data_aux]
  rfl

theorem sig_data (df : DataFrame) (s e : Nat) (sub : List String) :
    (create_group_signature df s e sub).data =
      encMatrix ((canonMatrix df s e sub).map (fun vs => vs.map String.data)) := by
  rw [create_group_signature_eq_proj, concatStr_data, encMatrix, canonMatrix]
  congr 1
  rw [List.map_map, List.map_map, List.map_map, List.map_map]
  refine List.map_congr_left ?_
  intro r _
  show (pyJoin "|" ((sub.map (fun c => lookupCell df.cols r c)).map strCell) ++ "\n").data
    = encRow (((sub.map (fun c => strCell (lookupCell df.cols r c)))).map String.data) ++ ['\n']
  rw [strData_append, pyJoin_data]
  simp only [List.map_map]
  rfl

theorem sep_split {c : Char} :
    ∀ {a : List Char} {b x y : List Char}, c ∉ a → c ∉ b →
      a ++ c :: x = b ++ c :: y → a = b ∧ x = y := by
  intro a
  induction a with
  | nil =>
    intro b x y _ hb h
    cases b with
    | nil =>
      simp only [List.nil_append, List.cons.injEq] at h
      exact ⟨rfl, h.2⟩
    | cons b0 bt =>
      simp only [List.nil_append, List.cons_append, List.cons.injEq] at h
      exact absurd (by rw [h.1]; exact List.mem_cons_self b0 bt) hb
  | cons a0 at' ih =>
    intro b x y ha hb h
    cases b with
    | nil =>
      simp only [List.cons_append, List.nil_append, List.cons.injEq] at h
      exact absurd (show c ∈ a0 :: at' by rw [h.1]; exact List.mem_cons_self c at')
        (fun hc => ha hc)
    | cons b0 bt =>
      simp only [List.cons_append, List.cons.injEq] at h
      have ha' : c ∉ at' := fun hmem => ha (List.mem_cons_of_mem _ hmem)
      have hb' : c ∉ bt := fun hmem => hb (List.mem_cons_of_mem _ hmem)
      obtain ⟨heq, hx⟩ := ih ha' hb' h.2
      exact ⟨by rw [h.1, heq], hx⟩

theorem encRow_chars : ∀ (fs : List (List Char)) (c : Char),
    c ∈ encRow fs → c = '|' ∨ ∃ f ∈ fs, c ∈ f := by
  intro fs
  induction fs with
  | nil => intro c hc; simp [encRow] at hc
  | cons f rest ih =>
    cases rest with
    | nil =>
      intro c hc
      right
      exact ⟨f, by simp, hc⟩
    | cons f' rest' =>
      intro c hc
      rw [show encRow (f :: f' :: rest') = f ++ '|' :: encRow (f' :: rest') from rfl] at hc
      rcases List.mem_append.mp hc with hc | hc
      · right; exact ⟨f, by simp, hc⟩
      · rcases List.mem_cons.mp hc with heq | hc
        · left; exact heq
        · rcases ih c hc with h | ⟨g, hg, hcg⟩
          · left; exact h
          · right; exact ⟨g, List.mem_cons_of_mem _ hg, hcg⟩

theorem encRow_inj : ∀ (f1 f2 : List (List Char)),
    f1 ≠ [] → f2 ≠ [] → (∀ f ∈ f1, '|' ∉ f) → (∀ f ∈ f2, '|' ∉ f) →
    encRow f1 = encRow f2 → f1 = f2 := by
  intro f1
  induction f1 with
  | nil => intro f2 h1 _ _ _ _; exact absurd rfl h1
  | cons x xs ih =>
    intro f2 _ h2 hg1 hg2 heq
    cases f2 with
    | nil => exact absurd rfl h2
    | cons y ys =>
      cases xs with
      | nil =>
        cases ys with
        | nil =>
          rw [show encRow [x] = x from rfl, show encRow [y] = y from rfl] at heq
          rw [heq]
        | cons y' ys' =>
          rw [show encRow [x] = x from rfl,
            show encRow (y :: y' :: ys') = y ++ '|' :: encRow (y' :: ys') from rfl] at heq
          have hmem : '|' ∈ x := by
            rw [heq]
            exact List.mem_append.mpr (Or.inr (List.mem_cons_self _ _))
          exact absurd hmem (hg1 x (List.mem_cons_self _ _))
      | cons x' xs' =>
        cases ys with
        | nil =>
          rw [show encRow (x :: x' :: xs') = x ++ '|' :: encRow (x' :: xs') from rfl,
            show encRow [y] = y from rfl] at heq
          have hmem : '|' ∈ y := by
            rw [← heq]
            exact List.mem_append.mpr (Or.inr (List.mem_cons_self _ _))
          exact absurd hmem (hg2 y (List.mem_cons_self _ _))
        | cons y' ys' =>
          rw [show encRow (x :: x' :: xs') = x ++ '|' :: encRow (x' :: xs') from rfl,
            show encRow (y :: y' :: ys') = y ++ '|' :: encRow (y' :: ys') from rfl] at heq
          obtain ⟨hxy, hE⟩ := sep_split (hg1 x (List.mem_cons_self _ _))
            (hg2 y (List.mem_cons_self _ _)) heq
          have hrest := ih (y' :: ys') (by simp) (by simp)
            (fun f hf => hg1 f (List.mem_cons_of_mem _ hf))
            (fun f hf => hg2 f (List.mem_cons_of_mem _ hf)) hE
          rw [hxy, hrest]

theorem encRow_no_newline (fs : List (List Char)) (h : ∀ f ∈ fs, '\n' ∉ f) :
    '\n' ∉ encRow fs := by
  intro hmem
  rcases encRow_chars fs _ hmem with h1 | ⟨f, hf, hcf⟩
  · exact absurd h1 (by decide)
  · exact h f hf hcf

theorem encMatrix_cons (r : List (List Char)) (t : List (List (List Char))) :
    encMatrix (r :: t) = encRow r ++ '\n' :: encMatrix t := by
  show (encRow r ++ ['\n']) ++ encMatrix t = _
  rw [List.append_assoc]
  rfl

theorem encMatrix_inj : ∀ (m1 m2 : List (List (List Char))),
    (∀ fs ∈ m1, fs ≠ [] ∧ ∀ f ∈ fs, '|' ∉ f ∧ '\n' ∉ f) →
    (∀ fs ∈ m2, fs ≠ [] ∧ ∀ f ∈ fs, '|' ∉ f ∧ '\n' ∉ f) →
    encMatrix m1 = encMatrix m2 → m1 = m2 := by
  intro m1
  induction m1 with
  | nil =>
    intro m2 _ _ heq
    cases m2 with
    | nil => rfl
    | cons r t =>
      exfalso
      rw [show encMatrix ([] : List (List (List Char))) = [] from rfl,
        encMatrix_cons] at heq
      exact List.ne_nil_of_mem (List.mem_append.mpr
        (Or.inr (List.mem_cons_self _ _))) heq.symm
  | cons r1 t1 ih =>
    intro m2 h1 h2 heq
    cases m2 with
    | nil =>
      exfalso
      rw [show encMatrix ([] : List (List (List Char))) = [] from rfl,
        encMatrix_cons] at heq
      exact List.ne_nil_of_mem (List.mem_append.mpr
        (Or.inr (List.mem_cons_self _ _))) heq
    | cons r2 t2 =>
      rw [encMatrix_cons, encMatrix_cons] at heq
      have hn1 : '\n' ∉ encRow r1 :=
        encRow_no_newline r1 (fun f hf => ((h1 r1 (List.mem_cons_self _ _)).2 f hf).2)
      have hn2 : '\n' ∉ encRow r2 :=
        encRow_no_newline r2 (fun f hf => ((h2 r2 (List.mem_cons_self _ _)).2 f hf).2)
      obtain ⟨hr, ht⟩ := sep_split hn1 hn2 heq
      have hrow := encRow_inj r1 r2 (h1 r1 (List.mem_cons_self _ _)).1
        (h2 r2 (List.mem_cons_self _ _)).1
        (fun f hf => ((h1 r1 (List.mem_cons_self _ _)).2 f hf).1)
        (fun f hf => ((h2 r2 (List.mem_cons_self _ _)).2 f hf).1) hr
      have hrest := ih t2 (fun fs hfs => h1 fs (List.mem_cons_of_mem _ hfs))
        (fun fs hfs => h2 fs (List.mem_cons_of_mem _ hfs)) ht
      rw [hrow, hrest]

theorem canon_chars_cond (df : DataFrame) (s e : Nat) (sub : List String)
    (hsub : sub ≠ [])
    (hg : ∀ vs ∈ canonMatrix df s e sub, ∀ v ∈ vs, goodVal v) :
    ∀ fs ∈ (canonMatrix df s e sub).map (fun vs => vs.map String.data),
      fs ≠ [] ∧ ∀ f ∈ fs, '|' ∉ f ∧ '\n' ∉ f := by
  intro fs hfs
  rcases List.mem_map.mp hfs with ⟨vs, hvs, hfeq⟩
  constructor
  · intro hnil
    rw [← hfeq] at hnil
    have h0 : vs.length = 0 := by simpa using congrArg List.length hnil
    rcases List.mem_map.mp hvs with ⟨r, _, hreq⟩
    have hlen : vs.length = sub.length := by
      rw [← hreq]
      simp
    rw [hlen] at h0
    exact hsub (List.length_eq_zero.mp h0)
  · intro f hf
    rw [← hfeq] at hf
    rcases List.mem_map.mp hf with ⟨v, hv, hveq⟩
    have := hg vs hvs v hv
    rw [← hveq]
    exact ⟨this.1, this.2⟩

/-- C3 (amended): two groups whose canonicalized value matrices over the
column subset differ yield different signatures, provided the column subset is
nonempty and no canonicalized value contains the field separator `|` or the
row separator (newline).  As stated in full generality the claim is false: the
raw `str()` encoding lets a value contain `|` or a newline, and the null
sentinel `nan` is the stringification of the real text value "nan", so
deliberately differing content can collide (see the counterexample). -/
theorem c3_signature_injective (df1 df2 : DataFrame) (s1 e1 s2 e2 : Nat)
    (sub : List String) (hsub : sub ≠ [])
    (hg1 : ∀ vs ∈ canonMatrix df1 s1 e1 sub, ∀ v ∈ vs, goodVal v)
    (hg2 : ∀ vs ∈ canonMatrix df2 s2 e2 sub, ∀ v ∈ vs, goodVal v)
    (hne : canonMatrix df1 s1 e1 sub ≠ canonMatrix df2 s2 e2 sub) :
    create_group_signature df1 s1 e1 sub ≠ create_group_signature df2 s2 e2 sub := by
  intro heq
  apply hne
  have hdata := congrArg String.data heq
  rw [sig_data, sig_data] at hdata
  have hcm := encMatrix_inj _ _ (canon_chars_cond df1 s1 e1 sub hsub hg1)
    (canon_chars_cond df2 s2 e2 sub hsub hg2) hdata
  have hinj1 : Function.Injective (fun (vs : List String) => vs.map String.data) :=
    List.map_injective_iff.mpr (fun a b h => strData_inj h)
  have hinj2 : Function.Injective
      (fun (m : List (List String)) => m.map (fun vs => vs.map String.data)) :=
    List.map_injective_iff.mpr hinj1
  exact hinj2 hcm

/-- C3 counterexample: deliberately differing content collides.  Rows 0 and 1
of `dfPipe` differ in cell `a` ("x|y" vs "x") yet give equal signatures
because a value contains the field separator; rows 2 and 3 differ in cell `a`
(null vs the text "nan") yet give equal signatures because the null sentinel
equals the stringification of a real value. -/
theorem c3_counterexample :
    (create_group_signature dfPipe 0 0 ["a", "b"] =
        create_group_signature dfPipe 1 1 ["a", "b"]
      ∧ lookupCell dfPipe.cols (dfPipe.rows.getD 0 []) "a" ≠
          lookupCell dfPipe.cols (dfPipe.rows.getD 1 []) "a")
    ∧ (create_group_signature dfPipe 2 2 ["a", "b"] =
        create_group_signature dfPipe 3 3 ["a", "b"]
      ∧ lookupCell dfPipe.cols (dfPipe.rows.getD 2 []) "a" = Cell.null
      ∧ lookupCell dfPipe.cols (dfPipe.rows.getD 3 []) "a" ≠ Cell.null) := by
  decide

/-- C3 witness: on groups of `dfA` with separator-free values, differing
content yields differing signatures. -/
theorem c3_signature_injective_witness :
    create_group_signature dfA 0 1 ["a", "b"] ≠
      create_group_signature dfA 4 4 ["a", "b"] :=
  c3_signature_injective dfA dfA 0 1 4 4 ["a", "b"] (by decide)
    (by decide) (by decide) (by decide)

/-! ### The materializer never fails (C9) -/

theorem maskOfFrom_shift (p : Nat → Bool) :
    ∀ (n j : Nat), maskOfFrom p (j + 1) n = maskOfFrom (fun i => p (i + 1)) j n := by
  intro n
  induction n with
  | zero => intro j; rfl
  | succ n ih =>
    intro j
    show p (j + 1) :: maskOfFrom p (j + 1 + 1) n = _
    rw [ih (j + 1)]
    rfl

theorem filterMask_maskOf_range (l : List (List Cell)) :
    ∀ (p : Nat → Bool),
      filterMask l (maskOfFrom p 0 l.length) =
        ((List.range l.length).filter p).map (fun i => l.getD i []) := by
  induction l with
  | nil => intro p; rfl
  | cons r rs ih =>
    intro p
    show filterMask (r :: rs) (p 0 :: maskOfFrom p (0 + 1) rs.length) = _
    rw [filterMask_cons, maskOfFrom_shift, ih (fun i => p (i + 1))]
    show _ = ((List.range (rs.length + 1)).filter p).map (fun i => (r :: rs).getD i [])
    rw [List.range_succ_eq_map, List.filter_cons, List.filter_map]
    have hcomp : List.filter (p ∘ Nat.succ) (List.range rs.length)
        = List.filter (fun i => p (i + 1)) (List.range rs.length) := rfl
    rw [hcomp]
    cases h0 : p 0 with
    | true =>
      simp only [eq_self_iff_true, if_true]
      rw [List.map_cons, List.map_map]
      congr 1
    | false =>
      simp only [Bool.false_eq_true, if_false]
      rw [List.map_map]
      refine List.map_congr_left ?_
      intro i _
      rfl

/-- C9 (amended): the materializer has no failure mode and performs no
validation: for every groups list — overlapping, unsorted or out of bounds
included — it returns the subset of rows lying in some kept group's span, in
original order, with the header unchanged.  (The claimed `InvalidState`
failure on malformed groups lists does not exist in the code.) -/
theorem c9_materializer_total (df : DataFrame) (keep : List Nat)
    (gs : List MajorGroup) :
    (remove_duplicate_groups df keep gs).cols = df.cols ∧
    (remove_duplicate_groups df keep gs).rows =
      ((List.range df.rows.length).filter (fun i => covers keep gs i)).map
        (fun i => df.rows.getD i []) := by
  refine ⟨rfl, ?_⟩
  show filterMask df.rows (keepMask df.rows.length keep gs) = _
  rw [keepMask_eq_maskOfFrom, filterMask_maskOf_range]

/-- C9 counterexample: on an overlapping, unsorted groups list the
materializer does not fail — it returns a perfectly ordinary table (rows 0–3
of `dfA`), so the claimed `InvalidState` failure mode does not exist. -/
theorem c9_counterexample :
    remove_duplicate_groups dfA [0, 1] gsBad =
      ⟨["dumb_time", "good_time", "a", "b"],
       [[Cell.null, Cell.int 10, Cell.str "x", Cell.int 1],
        [Cell.int 5, Cell.int 11, Cell.str "y", Cell.int 2],
        [Cell.null, Cell.int 20, Cell.str "x", Cell.int 1],
        [Cell.int 9, Cell.int 21, Cell.str "y", Cell.int 2]]⟩ := by
  decide

/-! ### The boundary column is excluded from comparison (C6) -/

theorem dumb_time_not_in_subset (df : DataFrame) :
    ∀ c ∈ non_time_cols df, c ≠ "dumb_time" := by
  intro c hc heq
  have hf : containsTime c = false := by
    have := (List.mem_filter.mp hc).2
    simpa using this
  rw [heq] at hf
  have ht : containsTime "dumb_time" = true := by decide
  rw [ht] at hf
  simp at hf

theorem proj_matrix_eq_of_cols (df : DataFrame) (s1 e1 s2 e2 : Nat)
    (sub : List String)
    (hlen : (segRows df.rows s1 e1).length = (segRows df.rows s2 e2).length)
    (hcols : ∀ c ∈ sub,
      (segRows df.rows s1 e1).map (fun r => lookupCell df.cols r c)
        = (segRows df.rows s2 e2).map (fun r => lookupCell df.cols r c)) :
    (segRows df.rows s1 e1).map (fun r => sub.map (fun c => lookupCell df.cols r c))
      = (segRows df.rows s2 e2).map (fun r => sub.map (fun c => lookupCell df.cols r c)) := by
  refine List.ext_getElem (by simp [hlen]) ?_
  intro i h1 h2
  rw [List.getElem_map, List.getElem_map]
  refine List.map_congr_left ?_
  intro c hc
  have h1' : i < (segRows df.rows s1 e1).length := by simpa using h1
  have h2' : i < (segRows df.rows s2 e2).length := by simpa using h2
  have hcol := hcols c hc
  have hentry : (List.map (fun r => lookupCell df.cols r c)
        (segRows df.rows s1 e1)).getD i Cell.null
      = (List.map (fun r => lookupCell df.cols r c)
        (segRows df.rows s2 e2)).getD i Cell.null := by
    rw [hcol]
  rw [List.getD_eq_getElem _ _ (by simpa using h1'),
    List.getD_eq_getElem _ _ (by simpa using h2')] at hentry
  rw [List.getElem_map, List.getElem_map] at hentry
  exact hentry

/-- C6: the boundary column is excluded from signature comparison
unconditionally: the code has no `ignore_columns` configuration at all — every
column whose lowercase name contains "time" is excluded, and the boundary
column `dumb_time` is always among them — so two groups of equal row count
that agree on every column other than `dumb_time` yield a single DuplicateSet
(one signature bucket containing both groups, the second reported as the sole
duplicate). -/
theorem c6_boundary_always_ignored (df : DataFrame) (g1 g2 : MajorGroup)
    (hlen : (segRows df.rows g1.start g1.stop).length =
      (segRows df.rows g2.start g2.stop).length)
    (hcols : ∀ c ∈ df.cols, c ≠ "dumb_time" →
      (segRows df.rows g1.start g1.stop).map (fun r => lookupCell df.cols r c)
        = (segRows df.rows g2.start g2.stop).map (fun r => lookupCell df.cols r c)) :
    find_duplicate_groups df [g1, g2] = ([g1], [g2], [g1.group_index]) := by
  have hsig : create_group_signature df g1.start g1.stop (non_time_cols df)
      = create_group_signature df g2.start g2.stop (non_time_cols df) := by
    refine c2_signature_of_content df df g1.start g1.stop g2.start g2.stop
      (non_time_cols df) ?_
    refine proj_matrix_eq_of_cols df g1.start g1.stop g2.start g2.stop
      (non_time_cols df) hlen ?_
    intro c hc
    exact hcols c (List.mem_of_mem_filter hc) (dumb_time_not_in_subset df c hc)
  have hbuckets : group_signature_buckets df [g1, g2] =
      [(create_group_signature df g1.start g1.stop (non_time_cols df), [g1, g2])] := by
    show addToBuckets (addToBuckets []
        (create_group_signature df g1.start g1.stop (non_time_cols df)) g1)
        (create_group_signature df g2.start g2.stop (non_time_cols df)) g2 = _
    rw [← hsig]
    simp [addToBuckets]
  show ((group_signature_buckets df [g1, g2]).map (fun b => b.2.headD defaultGroup),
    (group_signature_buckets df [g1, g2]).flatMap (fun b => b.2.drop 1),
    (group_signature_buckets df [g1, g2]).map (fun b => (b.2.headD defaultGroup).group_index))
    = ([g1], [g2], [g1.group_index])
  rw [hbuckets]
  rfl

/-- C6 witness: on `dfTimeDiff`, whose two groups differ only in the interior
values of the boundary column `dumb_time`, detection yields a single
DuplicateSet covering both groups. -/
theorem c6_boundary_always_ignored_witness :
    find_duplicate_groups dfTimeDiff [⟨0, 1, 2, 0⟩, ⟨2, 3, 2, 1⟩] =
      ([⟨0, 1, 2, 0⟩], [⟨2, 3, 2, 1⟩], [0]) :=
  c6_boundary_always_ignored dfTimeDiff ⟨0, 1, 2, 0⟩ ⟨2, 3, 2, 1⟩ (by decide) (by decide)

/-! ### Detection and removal ignore every "time" column (C10) -/

theorem segRows_getD (R : List (List Cell)) (s e i : Nat)
    (h : i < (segRows R s e).length) :
    (segRows R s e).getD i [] = R.getD (s + i) [] := by
  have hik : i < e + 1 - s := by
    rw [segRows, List.length_take] at h
    omega
  rw [segRows, List.getD_eq_getElem?_getD, List.getElem?_take, if_pos hik,
    List.getElem?_drop, List.getD_eq_getElem?_getD]

theorem sig_eq_of_nontime_cells (df1 df2 : DataFrame) (s e : Nat)
    (hcols : df1.cols = df2.cols) (hlen : df1.rows.length = df2.rows.length)
    (hcells : ∀ i, i < df1.rows.length → ∀ c ∈ df1.cols, containsTime c = false →
      cellAt df1 i c = cellAt df2 i c) :
    create_group_signature df1 s e (non_time_cols df1)
      = create_group_signature df2 s e (non_time_cols df2) := by
  have hsub : non_time_cols df1 = non_time_cols df2 := by
    rw [non_time_cols, non_time_cols, hcols]
  rw [← hsub]
  refine c2_signature_of_content df1 df2 s e s e (non_time_cols df1) ?_
  refine List.ext_getElem ?_ ?_
  · simp [segRows, hlen]
  · intro i h1 h2
    rw [List.getElem_map, List.getElem_map]
    have h1' : i < (segRows df1.rows s e).length := by simpa using h1
    have h2' : i < (segRows df2.rows s e).length := by simpa using h2
    refine List.map_congr_left ?_
    intro c hc
    have hcmem : c ∈ df1.cols := List.mem_of_mem_filter hc
    have hctime : containsTime c = false := by
      have := (List.mem_filter.mp hc).2
      simpa using this
    have hgd1 : (segRows df1.rows s e)[i] = (segRows df1.rows s e).getD i [] :=
      (List.getD_eq_getElem _ [] h1').symm
    have hgd2 : (segRows df2.rows s e)[i] = (segRows df2.rows s e).getD i [] :=
      (List.getD_eq_getElem _ [] h2').symm
    rw [hgd1, hgd2, segRows_getD df1.rows s e i h1', segRows_getD df2.rows s e i h2']
    have hbound : s + i < df1.rows.length := by
      rw [segRows, List.length_take, List.length_drop] at h1'
      omega
    exact hcells (s + i) hbound c hcmem hctime

theorem buckets_congr {κ α : Type} [DecidableEq κ] (f1 f2 : α → κ) :
    ∀ (l : List α) (bs : List (κ × List α)), (∀ x ∈ l, f1 x = f2 x) →
      l.foldl (fun bs x => addToBuckets bs (f1 x) x) bs
        = l.foldl (fun bs x => addToBuckets bs (f2 x) x) bs := by
  intro l
  induction l with
  | nil => intro bs _; rfl
  | cons x t ih =>
    intro bs hx
    show t.foldl (fun bs x => addToBuckets bs (f1 x) x) (addToBuckets bs (f1 x) x) = _
    rw [hx x (List.mem_cons_self _ _)]
    exact ih _ (fun y hy => hx y (List.mem_cons_of_mem _ hy))

/-- C10: duplicate detection and removal are insensitive to every column whose
lowercase name contains "time" (the boundary column included): for two tables
with the same header, the same row count and identical cells in every
non-"time" column, `find_duplicate_groups` returns identical results on any
groups list, and `remove_duplicate_groups` builds the identical row mask, so
it drops exactly the same row indices. -/
theorem c10_time_insensitive (df1 df2 : DataFrame)
    (hcols : df1.cols = df2.cols) (hlen : df1.rows.length = df2.rows.length)
    (hcells : ∀ i, i < df1.rows.length → ∀ c ∈ df1.cols, containsTime c = false →
      cellAt df1 i c = cellAt df2 i c)
    (gs : List MajorGroup) (keep : List Nat) :
    find_duplicate_groups df1 gs = find_duplicate_groups df2 gs
    ∧ keepMask df1.rows.length keep gs = keepMask df2.rows.length keep gs := by
  have hbuckets : group_signature_buckets df1 gs = group_signature_buckets df2 gs := by
    rw [group_signature_buckets, group_signature_buckets]
    refine buckets_congr _ _ gs [] ?_
    intro g _
    exact sig_eq_of_nontime_cells df1 df2 g.start g.stop hcols hlen hcells
  constructor
  · show ((group_signature_buckets df1 gs).map (fun b => b.2.headD defaultGroup),
      (group_signature_buckets df1 gs).flatMap (fun b => b.2.drop 1),
      (group_signature_buckets df1 gs).map (fun b => (b.2.headD defaultGroup).group_index))
      = ((group_signature_buckets df2 gs).map (fun b => b.2.headD defaultGroup),
      (group_signature_buckets df2 gs).flatMap (fun b => b.2.drop 1),
      (group_signature_buckets df2 gs).map (fun b => (b.2.headD defaultGroup).group_index))
    rw [hbuckets]
  · rw [hlen]

/-- C10 witness: `dfA` and `dfAShift` differ only in their time columns; on
the groups of `dfA`, detection returns identical results and the removal
masks coincide. -/
theorem c10_time_insensitive_witness :
    find_duplicate_groups dfA (identify_major_groups dfA)
        = find_duplicate_groups dfAShift (identify_major_groups dfA)
    ∧ keepMask dfA.rows.length [0, 2] (identify_major_groups dfA)
        = keepMask dfAShift.rows.length [0, 2] (identify_major_groups dfA) :=
  c10_time_insensitive dfA dfAShift (by decide) (by decide) (by decide)
    (identify_major_groups dfA) [0, 2]

/-! ### The analyze-script bucketing as a function of the host hash (C8) -/

theorem addToBuckets_map_key {κ κ' α : Type} [DecidableEq κ] [DecidableEq κ']
    (h : κ → κ') (bs : List (κ × List α)) (k : κ) (a : α)
    (hinj : ∀ k' ∈ bs.map Prod.fst, h k' = h k → k' = k) :
    addToBuckets (bs.map (fun b => (h b.1, b.2))) (h k) a
      = (addToBuckets bs k a).map (fun b => (h b.1, b.2)) := by
  induction bs with
  | nil => rfl
  | cons b0 rest ih =>
    obtain ⟨k0, l⟩ := b0
    by_cases hk : k0 = k
    · show addToBuckets ((h k0, l) :: rest.map (fun b => (h b.1, b.2))) (h k) a = _
      rw [show addToBuckets ((h k0, l) :: rest.map (fun b => (h b.1, b.2))) (h k) a
            = (h k0, l ++ [a]) :: rest.map (fun b => (h b.1, b.2)) from by
          simp [addToBuckets, hk]]
      rw [show addToBuckets ((k0, l) :: rest) k a = (k0, l ++ [a]) :: rest from by
          simp [addToBuckets, hk]]
      rfl
    · have hne : ¬(h k0 = h k) := fun heq =>
        hk (hinj k0 (by simp) heq)
      show addToBuckets ((h k0, l) :: rest.map (fun b => (h b.1, b.2))) (h k) a = _
      rw [show addToBuckets ((h k0, l) :: rest.map (fun b => (h b.1, b.2))) (h k) a
            = (h k0, l) :: addToBuckets (rest.map (fun b => (h b.1, b.2))) (h k) a from by
          simp [addToBuckets, hne]]
      rw [show addToBuckets ((k0, l) :: rest) k a = (k0, l) :: addToBuckets rest k a from by
          simp [addToBuckets, hk]]
      rw [ih (fun k' hk' heq => hinj k' (List.mem_cons_of_mem _ hk') heq)]
      rfl

theorem foldl_buckets_map_key {β κ κ' α : Type} [DecidableEq κ] [DecidableEq κ']
    (h : κ → κ') (f : β → κ) (pay : β → α) (K : κ → Prop)
    (hinj : ∀ k k', K k → K k' → h k = h k' → k = k') :
    ∀ (l : List β) (bs0 : List (κ × List α)),
      (∀ x ∈ l, K (f x)) → (∀ k ∈ bs0.map Prod.fst, K k) →
      l.foldl (fun bs x => addToBuckets bs (h (f x)) (pay x))
          (bs0.map (fun b => (h b.1, b.2)))
        = (l.foldl (fun bs x => addToBuckets bs (f x) (pay x)) bs0).map
            (fun b => (h b.1, b.2)) := by
  intro l
  induction l with
  | nil => intro bs0 _ _; rfl
  | cons x t ih =>
    intro bs0 hK hbs0
    show t.foldl (fun bs x => addToBuckets bs (h (f x)) (pay x))
        (addToBuckets (bs0.map (fun b => (h b.1, b.2))) (h (f x)) (pay x)) = _
    rw [addToBuckets_map_key h bs0 (f x) (pay x)
      (fun k hk heq => hinj k (f x) (hbs0 k hk) (hK x (List.mem_cons_self _ _)) heq)]
    refine ih (addToBuckets bs0 (f x) (pay x))
      (fun y hy => hK y (List.mem_cons_of_mem _ hy)) ?_
    intro k hk
    rw [addToBuckets_keys] at hk
    by_cases hmem : f x ∈ bs0.map Prod.fst
    · rw [if_pos hmem] at hk
      exact hbs0 k hk
    · rw [if_neg hmem] at hk
      rcases List.mem_append.mp hk with hk | hk
      · exact hbs0 k hk
      · rcases List.mem_singleton.mp hk with rfl
        exact hK x (List.mem_cons_self _ _)

theorem analyze_buckets_eq_str (h : String → Int) (df : DataFrame)
    (gs : List MajorGroup)
    (hinj : ∀ g ∈ gs, ∀ g' ∈ gs,
      h (analyze_values_str df g) = h (analyze_values_str df g') →
        analyze_values_str df g = analyze_values_str df g') :
    analyze_group_signatures h df gs
      = (analyze_str_buckets df gs).map (fun b => (h b.1, b.2)) := by
  rw [analyze_group_signatures, analyze_str_buckets]
  refine foldl_buckets_map_key h
    (fun (ig : Nat × MajorGroup) => analyze_values_str df ig.2)
    (fun ig => ig.1) (fun k => ∃ g ∈ gs, analyze_values_str df g = k)
    ?_ gs.enum [] ?_ ?_
  · rintro k k' ⟨g, hg, hk⟩ ⟨g', hg', hk'⟩ heq
    rw [← hk, ← hk']
    rw [← hk, ← hk'] at heq
    exact hinj g hg g' hg' heq
  · rintro ⟨i, g⟩ hx
    obtain ⟨hi, hg⟩ := List.mem_enum hx
    refine ⟨g, ?_, rfl⟩
    rw [hg]
    exact List.getElem_mem _
  · intro k hk
    simp at hk

/-- C8 (amended): detection reports the same duplicate sets on every run
provided the host hash is collision-free on the groups' canonical buffers: for
any two host hash functions, each injective on the canonical strings of the
given groups, the `hash()`-based bucketing of `analyze_correct_duplicates.py`
reports identical duplicate index sets.  As stated ("independent of any host
runtime hash implementation") the claim fails: the reported duplicate sets
depend on the host `hash`, which in CPython is salted per process (see the
counterexample); only the md5-based `create_group_signature` of
`remove_duplicate_groups.py` is a pure function of content. -/
theorem c8_reproducible_modulo_collisions (df : DataFrame) (gs : List MajorGroup)
    (h1 h2 : String → Int)
    (hinj1 : ∀ g ∈ gs, ∀ g' ∈ gs,
      h1 (analyze_values_str df g) = h1 (analyze_values_str df g') →
        analyze_values_str df g = analyze_values_str df g')
    (hinj2 : ∀ g ∈ gs, ∀ g' ∈ gs,
      h2 (analyze_values_str df g) = h2 (analyze_values_str df g') →
        analyze_values_str df g = analyze_values_str df g') :
    (analyze_duplicate_patterns h1 df gs).map (fun b => b.2)
      = (analyze_duplicate_patterns h2 df gs).map (fun b => b.2) := by
  rw [analyze_duplicate_patterns, analyze_duplicate_patterns,
    analyze_buckets_eq_str h1 df gs hinj1, analyze_buckets_eq_str h2 df gs hinj2,
    List.filter_map, List.filter_map, List.map_map, List.map_map]
  rfl

/-- C8 witness: two concrete collision-free host hashes (string length and
twice the string length) produce identical duplicate reports on `dfTwo`. -/
theorem c8_reproducible_modulo_collisions_witness :
    (analyze_duplicate_patterns (fun s => (s.length : Int)) dfTwo
        (identify_major_groups dfTwo)).map (fun b => b.2)
      = (analyze_duplicate_patterns (fun s => (2 * s.length : Int)) dfTwo
          (identify_major_groups dfTwo)).map (fun b => b.2) :=
  c8_reproducible_modulo_collisions dfTwo (identify_major_groups dfTwo)
    (fun s => (s.length : Int)) (fun s => (2 * s.length : Int))
    (by decide) (by decide)

/-- C8 counterexample: the duplicate sets reported by the `hash()`-based
bucketing are not independent of the host hash implementation — a colliding
host hash merges the two distinct groups of `dfTwo` into one reported
duplicate set, while a collision-free one reports none. -/
theorem c8_counterexample :
    (analyze_duplicate_patterns (fun _ => (0 : Int)) dfTwo
        (identify_major_groups dfTwo)).map (fun b => b.2)
      ≠ (analyze_duplicate_patterns (fun s => (s.length : Int)) dfTwo
          (identify_major_groups dfTwo)).map (fun b => b.2) := by
  decide

/-! ### Output row count accounting (C4) -/

/-- C4 (amended): for every table whose first row is a boundary-start row (or
which is empty), `total_duplicate_rows` — the sum of the sizes of the
non-first occurrences of each signature, i.e. of the `duplicate_groups`
returned by detection — is at most the row count, and the keep-first
materialized output has row count equal to the input row count minus
`total_duplicate_rows`.  (For a table whose row 0 has a non-null boundary
cell, the unassigned leading rows are dropped as well, and the equation
fails; see the counterexample.) -/
theorem c4_output_count (df : DataFrame)
    (h : df.rows = [] ∨ cellAt df 0 "dumb_time" = Cell.null) :
    (((find_duplicate_groups df (identify_major_groups df)).2.1.map
        (fun g => g.size)).sum ≤ df.rows.length)
    ∧ (remove_duplicate_groups df
          (find_duplicate_groups df (identify_major_groups df)).2.2
          (identify_major_groups df)).rows.length
        = df.rows.length -
          ((find_duplicate_groups df (identify_major_groups df)).2.1.map
            (fun g => g.size)).sum := by
  by_cases hrows : df.rows = []
  · have h0 : nullIndices df = [] := by simp [nullIndices, hrows]
    rw [identify_empty df h0]
    show (((([] : List (String × List MajorGroup)).map _,
        ([] : List (String × List MajorGroup)).flatMap _,
        ([] : List (String × List MajorGroup)).map _).2.1.map
          (fun (g : MajorGroup) => g.size)).sum ≤ df.rows.length) ∧ _
    simp [remove_duplicate_groups, hrows, filterMask, keepMask]
  · have hnull : cellAt df 0 "dumb_time" = Cell.null := by
      rcases h with h | h
      · exact absurd h hrows
      · exact h
    have hlen : 0 < df.rows.length := List.length_pos.mpr hrows
    obtain ⟨rest, hni⟩ := nullIndices_head0 df hlen hnull
    have hs := identify_spans df 0 rest hni
    have hsz := identify_sizes df
    have hidx := identify_idx_nodup df
    set gs := identify_major_groups df with hgs
    set keep := (find_duplicate_groups df gs).2.2 with hkeep
    have hout := remove_length_eq df gs 0 hs hsz keep
    have hkeptperm := filter_kept_perm_unique df gs hidx
    have hdupperm := filter_not_kept_perm_dups df gs hidx
    have hpart := sum_map_filter_partition gs
      (fun g => decide (g.group_index ∈ keep))
    have htotal : (gs.map (fun g => g.size)).sum = df.rows.length := by
      rw [hs.sum_sizes hsz]
      omega
    have hdupsum : ((gs.filter (fun g =>
          !(decide (g.group_index ∈ keep)))).map (fun g => g.size)).sum
        = ((find_duplicate_groups df gs).2.1.map (fun g => g.size)).sum :=
      (hdupperm.map (fun g => g.size)).sum_eq
    have hkeptsum : ((gs.filter (fun g =>
          decide (g.group_index ∈ keep))).map (fun g => g.size)).sum
        = ((find_duplicate_groups df gs).1.map (fun g => g.size)).sum :=
      (hkeptperm.map (fun g => g.size)).sum_eq
    rw [htotal] at hpart
    constructor
    · omega
    · rw [hout]
      omega

/-- C4 witness: the accounting evaluated on `dfA` (5 rows, one duplicated
2-row group, output 3 rows = 5 − 2). -/
theorem c4_output_count_witness :
    (((find_duplicate_groups dfA (identify_major_groups dfA)).2.1.map
        (fun g => g.size)).sum ≤ dfA.rows.length)
    ∧ (remove_duplicate_groups dfA
          (find_duplicate_groups dfA (identify_major_groups dfA)).2.2
          (identify_major_groups dfA)).rows.length
        = dfA.rows.length -
          ((find_duplicate_groups dfA (identify_major_groups dfA)).2.1.map
            (fun g => g.size)).sum :=
  c4_output_count dfA (Or.inr (by decide))

/-- C4 counterexample: on a one-row table whose boundary cell is non-null the
materialized output has 0 rows while the input row count minus
`total_duplicate_rows` is 1. -/
theorem c4_counterexample :
    (remove_duplicate_groups dfNoNull
        (find_duplicate_groups dfNoNull (identify_major_groups dfNoNull)).2.2
        (identify_major_groups dfNoNull)).rows.length
      ≠ dfNoNull.rows.length -
        ((find_duplicate_groups dfNoNull (identify_major_groups dfNoNull)).2.1.map
          (fun g => g.size)).sum := by
  decide

/-! ### Null-row structure of a flattened list of good blocks (towards C5) -/

theorem nullPositionsFrom_append (cols : List String) :
    ∀ (X Y : List (List Cell)) (j : Nat),
      nullPositionsFrom cols j (X ++ Y)
        = nullPositionsFrom cols j X ++ nullPositionsFrom cols (j + X.length) Y := by
  intro X
  induction X with
  | nil =>
    intro Y j
    simp [nullPositionsFrom]
  | cons r rs ih =>
    intro Y j
    have harith : j + (r :: rs).length = (j + 1) + rs.length := by
      simp only [List.length_cons]
      omega
    rw [harith]
    show (if rowNull cols r then [j] else []) ++ nullPositionsFrom cols (j + 1) (rs ++ Y)
      = ((if rowNull cols r then [j] else []) ++ nullPositionsFrom cols (j + 1) rs)
        ++ nullPositionsFrom cols ((j + 1) + rs.length) Y
    rw [ih Y (j + 1), List.append_assoc]

theorem nullPositionsFrom_none (cols : List String) :
    ∀ (R : List (List Cell)) (j : Nat),
      (∀ r ∈ R, rowNull cols r = false) → nullPositionsFrom cols j R = [] := by
  intro R
  induction R with
  | nil => intro j _; rfl
  | cons r rs ih =>
    intro j h
    show (if rowNull cols r then [j] else []) ++ nullPositionsFrom cols (j + 1) rs = []
    rw [h r (List.mem_cons_self _ _), ih (j + 1) (fun r' hr' => h r' (List.mem_cons_of_mem _ hr'))]
    rfl

theorem nullPositions_aux (cols : List String) :
    ∀ (R : List (List Cell)) (j : Nat),
      ((List.range R.length).filter (fun i => rowNull cols (R.getD i []))).map
          (fun i => j + i)
        = nullPositionsFrom cols j R := by
  intro R
  induction R with
  | nil => intro j; rfl
  | cons r rs ih =>
    intro j
    show ((List.range (rs.length + 1)).filter
        (fun i => rowNull cols ((r :: rs).getD i []))).map (fun i => j + i) = _
    rw [List.range_succ_eq_map, List.filter_cons, List.filter_map]
    have hpred : (fun i => rowNull cols ((r :: rs).getD i [])) ∘ Nat.succ
        = fun i => rowNull cols (rs.getD i []) := rfl
    rw [hpred]
    rw [show nullPositionsFrom cols j (r :: rs)
      = (if rowNull cols r then [j] else []) ++ nullPositionsFrom cols (j + 1) rs from rfl]
    rw [← ih (j + 1)]
    simp only [List.getD_cons_zero]
    by_cases h0 : rowNull cols r = true
    · rw [if_pos h0, if_pos h0]
      rw [List.map_cons, List.map_map]
      show (j + 0) :: List.map ((fun i => j + i) ∘ Nat.succ)
          (List.filter (fun i => rowNull cols (rs.getD i [])) (List.range rs.length))
        = j :: List.map (fun i => (j + 1) + i)
          (List.filter (fun i => rowNull cols (rs.getD i [])) (List.range rs.length))
      congr 1
      refine List.map_congr_left ?_
      intro i _
      show j + (i + 1) = (j + 1) + i
      omega
    · rw [if_neg h0, if_neg h0]
      rw [List.map_map]
      show List.map ((fun i => j + i) ∘ Nat.succ)
          (List.filter (fun i => rowNull cols (rs.getD i [])) (List.range rs.length))
        = [] ++ List.map (fun i => (j + 1) + i)
          (List.filter (fun i => rowNull cols (rs.getD i [])) (List.range rs.length))
      show List.map ((fun i => j + i) ∘ Nat.succ)
          (List.filter (fun i => rowNull cols (rs.getD i [])) (List.range rs.length))
        = List.map (fun i => (j + 1) + i)
          (List.filter (fun i => rowNull cols (rs.getD i [])) (List.range rs.length))
      refine List.map_congr_left ?_
      intro i _
      show j + (i + 1) = (j + 1) + i
      omega

theorem nullIndices_eq_positions (df : DataFrame) :
    nullIndices df = nullPositionsFrom df.cols 0 df.rows := by
  have aux := nullPositions_aux df.cols df.rows 0
  rw [← aux]
  have hid : ∀ (L : List Nat), L.map (fun i => 0 + i) = L := by
    intro L
    have h1 : L.map (fun i => 0 + i) = L.map id :=
      List.map_congr_left (fun a _ => by simp)
    rw [h1, List.map_id]
  rw [hid]
  rfl

theorem nullPositions_flatten (cols : List String) :
    ∀ (Bs : List (List (List Cell))) (j : Nat), (∀ b ∈ Bs, GoodBlock cols b) →
      nullPositionsFrom cols j Bs.flatten = blockStartsFrom j Bs := by
  intro Bs
  induction Bs with
  | nil => intro j _; rfl
  | cons b bs ih =>
    intro j hg
    rw [List.flatten_cons, nullPositionsFrom_append]
    obtain ⟨hne, hhead, htail⟩ := hg b (List.mem_cons_self _ _)
    obtain ⟨r, t, rfl⟩ : ∃ r t, b = r :: t := by
      cases b with
      | nil => exact absurd rfl hne
      | cons r t => exact ⟨r, t, rfl⟩
    have hr : rowNull cols r = true := hhead
    show ((if rowNull cols r then [j] else []) ++ nullPositionsFrom cols (j + 1) t)
        ++ nullPositionsFrom cols (j + (r :: t).length) bs.flatten
      = j :: blockStartsFrom (j + (r :: t).length) bs
    rw [if_pos hr,
      nullPositionsFrom_none cols t (j + 1) (fun r' hr' => htail r' hr'),
      ih (j + (r :: t).length) (fun b' hb' => hg b' (List.mem_cons_of_mem _ hb'))]
    rfl

theorem buildGroups_blocks :
    ∀ (Bs : List (List (List Cell))) (j idx : Nat) (R : List (List Cell)),
      (∀ b ∈ Bs, b ≠ []) → R.length = j + Bs.flatten.length →
      R.drop j = Bs.flatten →
      (buildGroups R.length (blockStartsFrom j Bs) idx).map
        (fun g => segRows R g.start g.stop) = Bs := by
  intro Bs
  induction Bs with
  | nil => intro j idx R _ _ _; rfl
  | cons b bs ih =>
    intro j idx R hne hlen hdrop
    have hbne : b ≠ [] := hne b (List.mem_cons_self _ _)
    have hbpos : 0 < b.length := List.length_pos.mpr hbne
    rw [List.flatten_cons] at hdrop
    rw [List.flatten_cons, List.length_append] at hlen
    cases bs with
    | nil =>
      show [segRows R j (R.length - 1)] = [b]
      congr 1
      rw [segRows]
      have h1 : R.drop j = b := by
        rw [hdrop]
        simp
      simp only [List.flatten_nil, List.length_nil] at hlen
      have h2 : R.length - 1 + 1 - j = b.length := by omega
      rw [h1, h2, List.take_length]
    | cons b2 rest =>
      show segRows R j (j + b.length - 1)
          :: (buildGroups R.length (blockStartsFrom (j + b.length) (b2 :: rest))
              (idx + 1)).map (fun g => segRows R g.start g.stop)
        = b :: (b2 :: rest)
      congr 1
      · rw [segRows, hdrop]
        have h2 : j + b.length - 1 + 1 - j = b.length := by omega
        rw [h2, List.take_left]
      · refine ih (j + b.length) (idx + 1) R
          (fun b' hb' => hne b' (List.mem_cons_of_mem _ hb')) (by omega) ?_
        rw [← List.drop_drop, hdrop, List.drop_left]

/-! ### A second detection pass over distinct signatures finds nothing (C5) -/

theorem addToBuckets_fresh {κ α : Type} [DecidableEq κ] (bs : List (κ × List α))
    (k : κ) (a : α) (hk : k ∉ bs.map Prod.fst) :
    addToBuckets bs k a = bs ++ [(k, [a])] := by
  induction bs with
  | nil => rfl
  | cons b0 rest ih =>
    obtain ⟨k0, l⟩ := b0
    have hne : k0 ≠ k := fun h => hk (by simp [h])
    rw [show addToBuckets ((k0, l) :: rest) k a = (k0, l) :: addToBuckets rest k a from by
      simp [addToBuckets, hne]]
    rw [ih (fun h => hk (List.mem_cons_of_mem _ h))]
    rfl

theorem foldl_buckets_nodup {κ α : Type} [DecidableEq κ] (f : α → κ) (d : α) :
    ∀ (l : List α) (bs0 : List (κ × List α)),
      (∀ b ∈ bs0, ∃ x, b.2 = [x]) →
      ((bs0.map Prod.fst) ++ (l.map f)).Nodup →
      (∀ b ∈ (l.foldl (fun bs x => addToBuckets bs (f x) x) bs0), ∃ x, b.2 = [x])
      ∧ (l.foldl (fun bs x => addToBuckets bs (f x) x) bs0).map (fun b => b.2.headD d)
          = (bs0.map (fun b => b.2.headD d)) ++ l := by
  intro l
  induction l with
  | nil =>
    intro bs0 h1 _
    exact ⟨h1, by simp⟩
  | cons x t ih =>
    intro bs0 h1 h2
    have hfresh : f x ∉ bs0.map Prod.fst := by
      have hdisj := List.disjoint_of_nodup_append h2
      intro hmem
      exact hdisj hmem (by simp)
    simp only [List.foldl_cons]
    rw [addToBuckets_fresh bs0 (f x) x hfresh]
    have hkeys : ((bs0 ++ [(f x, [x])]).map Prod.fst ++ t.map f).Nodup := by
      rw [List.map_append, List.append_assoc]
      simpa using h2
    have hsing : ∀ b ∈ bs0 ++ [(f x, [x])], ∃ y, b.2 = [y] := by
      intro b hb
      rcases List.mem_append.mp hb with hb | hb
      · exact h1 b hb
      · rcases List.mem_singleton.mp hb with rfl
        exact ⟨x, rfl⟩
    obtain ⟨ihA, ihB⟩ := ih (bs0 ++ [(f x, [x])]) hsing hkeys
    refine ⟨ihA, ?_⟩
    rw [ihB, List.map_append, List.append_assoc]
    rfl

theorem find_nodup_sigs (df : DataFrame) (gs : List MajorGroup)
    (h : (gs.map (sigOf df)).Nodup) :
    (find_duplicate_groups df gs).2.1 = []
    ∧ (find_duplicate_groups df gs).2.2 = gs.map (fun g => g.group_index) := by
  obtain ⟨hsing, hheads⟩ := foldl_buckets_nodup (sigOf df) defaultGroup gs []
    (by intro b hb; simp at hb) (by simpa using h)
  constructor
  · show (group_signature_buckets df gs).flatMap (fun b => b.2.drop 1) = []
    rw [List.flatMap_eq_nil_iff]
    intro b hb
    obtain ⟨x, hx⟩ := hsing b hb
    rw [hx]
    rfl
  · show (group_signature_buckets df gs).map
      (fun b => (b.2.headD defaultGroup).group_index) = _
    have hmm : (group_signature_buckets df gs).map
        (fun b => (b.2.headD defaultGroup).group_index)
        = ((group_signature_buckets df gs).map
            (fun b => b.2.headD defaultGroup)).map (fun g => g.group_index) := by
      rw [List.map_map]
      rfl
    rw [hmm]
    have hheads' : (group_signature_buckets df gs).map
        (fun b => b.2.headD defaultGroup) = gs := by
      simpa using hheads
    rw [hheads']

theorem seg_goodBlock (df : DataFrame) (g : MajorGroup)
    (hg : g ∈ identify_major_groups df)
    (hb1 : g.start ≤ g.stop) (hb2 : g.stop < df.rows.length) :
    GoodBlock df.cols (segRows df.rows g.start g.stop) := by
  have hstart := buildGroups_start_mem df.rows.length (nullIndices df) 0
    (nullIndices_pairwise df) g hg
  have hlen : (segRows df.rows g.start g.stop).length = g.stop + 1 - g.start :=
    seg_length df.rows g hb2 hb1
  refine ⟨?_, ?_, ?_⟩
  · intro hnil
    rw [hnil] at hlen
    simp at hlen
    omega
  · have h0 : 0 < (segRows df.rows g.start g.stop).length := by omega
    have hD : (segRows df.rows g.start g.stop).headD []
        = (segRows df.rows g.start g.stop).getD 0 [] := by
      cases segRows df.rows g.start g.stop with
      | nil => rfl
      | cons a t => rfl
    rw [hD, segRows_getD df.rows g.start g.stop 0 h0]
    have hmem := (mem_nullIndices df g.start).mp hstart.1
    show decide (lookupCell df.cols (df.rows.getD (g.start + 0) []) "dumb_time"
      = Cell.null) = true
    exact decide_eq_true hmem.2
  · intro r hr
    rw [List.mem_iff_getElem] at hr
    obtain ⟨i, hi, hri⟩ := hr
    rw [List.getElem_tail] at hri
    have hi1 : i + 1 < (segRows df.rows g.start g.stop).length := by
      rw [List.length_tail] at hi
      omega
    have hgd : (segRows df.rows g.start g.stop)[i + 1]
        = (segRows df.rows g.start g.stop).getD (i + 1) [] :=
      (List.getD_eq_getElem _ [] hi1).symm
    rw [hgd, segRows_getD df.rows g.start g.stop (i + 1) hi1] at hri
    have hidx_le : g.start + (i + 1) ≤ g.stop := by
      rw [hlen] at hi1
      omega
    have hnotnull : g.start + (i + 1) ∉ nullIndices df :=
      hstart.2 (g.start + (i + 1)) (by omega) hidx_le
    have hne : ¬(cellAt df (g.start + (i + 1)) "dumb_time" = Cell.null) := fun hc =>
      hnotnull ((mem_nullIndices df _).mpr ⟨by omega, hc⟩)
    rw [← hri]
    exact decide_eq_false hne

/-- C5: the detect-then-materialize pipeline is idempotent for every table:
running detection and keep-first removal a second time on the output finds
zero duplicate sets and returns the output unchanged.  (This holds even when
row 0 has a non-null boundary cell: the first pass drops the unassigned
leading rows, and the output then starts with a boundary-start row.) -/
theorem c5_detect_materialize_idempotent (df : DataFrame) :
    (find_duplicate_groups
        (remove_duplicate_groups df
          (find_duplicate_groups df (identify_major_groups df)).2.2
          (identify_major_groups df))
        (identify_major_groups
          (remove_duplicate_groups df
            (find_duplicate_groups df (identify_major_groups df)).2.2
            (identify_major_groups df)))).2.1 = []
    ∧ remove_duplicate_groups
        (remove_duplicate_groups df
          (find_duplicate_groups df (identify_major_groups df)).2.2
          (identify_major_groups df))
        (find_duplicate_groups
          (remove_duplicate_groups df
            (find_duplicate_groups df (identify_major_groups df)).2.2
            (identify_major_groups df))
          (identify_major_groups
            (remove_duplicate_groups df
              (find_duplicate_groups df (identify_major_groups df)).2.2
              (identify_major_groups df)))).2.2
        (identify_major_groups
          (remove_duplicate_groups df
            (find_duplicate_groups df (identify_major_groups df)).2.2
            (identify_major_groups df)))
      = remove_duplicate_groups df
          (find_duplicate_groups df (identify_major_groups df)).2.2
          (identify_major_groups df) := by
  set gs := identify_major_groups df with hgs
  set keep := (find_duplicate_groups df gs).2.2 with hkeep
  set df' := remove_duplicate_groups df keep gs with hdf'
  set gs' := identify_major_groups df' with hgs'
  have hcols' : df'.cols = df.cols := by
    rw [hdf']
    rfl
  cases hni : nullIndices df with
  | nil =>
    have hgse : gs = [] := by
      rw [hgs]
      exact identify_empty df hni
    have hrows' : df'.rows = [] := by
      rw [hdf']
      show filterMask df.rows (keepMask df.rows.length keep gs) = []
      rw [hgse, keepMask_eq_maskOfFrom]
      exact filterMask_false df.rows (covers keep []) 0 (fun i _ => rfl)
    have hni' : nullIndices df' = [] := by
      simp [nullIndices, hrows']
    have hgs'e : gs' = [] := by
      rw [hgs']
      exact identify_empty df' hni'
    constructor
    · rw [hgs'e]
      rfl
    · rw [hgs'e]
      show (⟨df'.cols, filterMask df'.rows
        (keepMask df'.rows.length (find_duplicate_groups df' []).2.2 [])⟩ : DataFrame) = df'
      have hrw : filterMask df'.rows
          (keepMask df'.rows.length (find_duplicate_groups df' []).2.2 []) = df'.rows := by
        rw [hrows']
        rfl
      rw [hrw]
  | cons s rest =>
    have hspans : Spans s df.rows.length gs := by
      rw [hgs]
      exact identify_spans df s rest hni
    have hidx : (gs.map (fun g => g.group_index)).Nodup := by
      rw [hgs]
      exact identify_idx_nodup df
    set kept := gs.filter (fun g => decide (g.group_index ∈ keep)) with hkept
    set Bs := kept.map (fun g => segRows df.rows g.start g.stop) with hBs
    have hrows' : df'.rows = Bs.flatten := by
      rw [hdf']
      show (remove_duplicate_groups df keep gs).rows = Bs.flatten
      rw [remove_rows_eq_flatMap df gs s hspans keep]
      rfl
    have hgood : ∀ b ∈ Bs, GoodBlock df.cols b := by
      intro b hbmem
      rw [hBs] at hbmem
      rcases List.mem_map.mp hbmem with ⟨g, hgmem, hbeq⟩
      have hgsmem : g ∈ gs := List.mem_of_mem_filter hgmem
      have hbnd := hspans.mem_bounds g hgsmem
      rw [← hbeq]
      exact seg_goodBlock df g (by rw [← hgs]; exact hgsmem) hbnd.2.1 hbnd.2.2
    have hni' : nullIndices df' = blockStartsFrom 0 Bs := by
      rw [nullIndices_eq_positions df', hcols', hrows']
      exact nullPositions_flatten df.cols Bs 0 hgood
    have hsegs' : gs'.map (fun g => segRows df'.rows g.start g.stop) = Bs := by
      rw [hgs']
      show (buildGroups df'.rows.length (nullIndices df') 0).map
        (fun g => segRows df'.rows g.start g.stop) = Bs
      rw [hni']
      refine buildGroups_blocks Bs 0 0 df'.rows
        (fun b hbmem => (hgood b hbmem).1) ?_ ?_
      · rw [hrows']
        simp
      · rw [hrows']
        rfl
    have hsigs : gs'.map (sigOf df') = kept.map (sigOf df) := by
      have h1 : gs'.map (sigOf df')
          = (gs'.map (fun g => segRows df'.rows g.start g.stop)).map
            (fun R0 => concatStr (R0.map (rowLine df.cols (non_time_cols df)))) := by
        rw [List.map_map]
        refine List.map_congr_left ?_
        intro g _
        show sigOf df' g = concatStr ((segRows df'.rows g.start g.stop).map
          (rowLine df.cols (non_time_cols df)))
        rw [sigOf, create_group_signature]
        rw [show non_time_cols df' = non_time_cols df from by
          rw [non_time_cols, non_time_cols, hcols']]
        rw [show df'.cols = df.cols from hcols']
      rw [h1, hsegs', hBs, List.map_map]
      rfl
    have hnodup' : (gs'.map (sigOf df')).Nodup := by
      rw [hsigs]
      have hperm := (filter_kept_perm_unique df gs hidx).map (sigOf df)
      exact (unique_sigs_nodup df gs).perm hperm.symm
    obtain ⟨hd', hk'⟩ := find_nodup_sigs df' gs' hnodup'
    refine ⟨hd', ?_⟩
    cases hBscase : Bs with
    | nil =>
      have hrownil : df'.rows = [] := by
        rw [hrows', hBscase]
        rfl
      have hgs'nil : gs' = [] := by
        rw [hgs']
        refine identify_empty df' ?_
        rw [hni', hBscase]
        rfl
      rw [hgs'nil]
      show (⟨df'.cols, filterMask df'.rows
        (keepMask df'.rows.length (find_duplicate_groups df' gs').2.2 [])⟩ : DataFrame) = df'
      have hrw : filterMask df'.rows
          (keepMask df'.rows.length (find_duplicate_groups df' gs').2.2 []) = df'.rows := by
        rw [hrownil]
        rfl
      rw [hrw]
    | cons b0 bt =>
      have hni'' : nullIndices df' = 0 :: blockStartsFrom (0 + b0.length) bt := by
        rw [hni', hBscase]
        rfl
      have hspans' : Spans 0 df'.rows.length gs' := by
        rw [hgs']
        exact identify_spans df' 0 _ hni''
      have hfilter : gs'.filter
          (fun g => decide (g.group_index ∈ (find_duplicate_groups df' gs').2.2)) = gs' := by
        rw [List.filter_eq_self]
        intro g' hg'
        rw [hk']
        simpa using List.mem_map.mpr ⟨g', hg', rfl⟩
      have hrm := remove_rows_eq_flatMap df' gs' 0 hspans' (find_duplicate_groups df' gs').2.2
      rw [hfilter] at hrm
      have hflat : gs'.flatMap (fun g => segRows df'.rows g.start g.stop) = df'.rows := by
        show (gs'.map (fun g => segRows df'.rows g.start g.stop)).flatten = df'.rows
        rw [hsegs', hrows']
      have hfinal : remove_duplicate_groups df' (find_duplicate_groups df' gs').2.2 gs'
          = ⟨df'.cols, df'.rows⟩ := by
        show (⟨df'.cols, (remove_duplicate_groups df'
          (find_duplicate_groups df' gs').2.2 gs').rows⟩ : DataFrame) = ⟨df'.cols, df'.rows⟩
        rw [hrm, hflat]
      rw [hfinal]
